import Mathlib

/-!
Verification development for the localserver HTTP server.

The definitions below are a shallow embedding of the Rust sources of the
repository (src/models.rs, src/request.rs, src/response.rs, src/config.rs,
src/read.rs, src/write.rs, src/handler.rs, src/router.rs).  Byte buffers are
modelled as lists of natural numbers (the `u8` values), strings as Lean
strings, and the filesystem as explicit data passed to the functions that the
Rust code performs I/O through.  Modules of the repository that are referenced
by the sources but whose file is not part of the source tree (the `utils`
module with `HttpHeaders`, cookies and sessions, and the richer incremental
request builder used by `src/read.rs`) are modelled from the specification;
each such definition carries a doc comment saying so.
-/

namespace LocalServer

/-- The byte sequence of an ASCII string: each char of the string as its
code point.  Used to embed Rust byte-string literals and `String::into_bytes`. -/
def strBytes (s : String) : List Nat := s.data.map Char.toNat

/-- Inverse direction, embedding `String::from_utf8_lossy` for the ASCII
fragment the server manipulates. -/
def asciiStr (l : List Nat) : String := ⟨l.map Char.ofNat⟩

/-! Character-list implementations of the `str` operations the sources use.
The Lean core versions of these (`String.trim`, `String.splitOn`, ...) are
defined through position arithmetic and well-founded recursion, which the
kernel cannot evaluate; the structural versions below compute. -/

/-- ASCII whitespace, as `str::trim` sees the configuration and headers. -/
def isWsp (c : Char) : Bool := c == ' ' || c == '\t' || c == '\r' || c == '\n'

/-- Embeds `str::trim`. -/
def sTrim (s : String) : String :=
  ⟨((s.data.dropWhile isWsp).reverse.dropWhile isWsp).reverse⟩

def lowerAscii (c : Char) : Char :=
  if 'A' ≤ c ∧ c ≤ 'Z' then Char.ofNat (c.toNat + 32) else c

def upperAscii (c : Char) : Char :=
  if 'a' ≤ c ∧ c ≤ 'z' then Char.ofNat (c.toNat - 32) else c

/-- Embeds `str::to_lowercase` (ASCII fragment). -/
def sToLower (s : String) : String := ⟨s.data.map lowerAscii⟩

/-- Embeds `str::to_uppercase` (ASCII fragment). -/
def sToUpper (s : String) : String := ⟨s.data.map upperAscii⟩

/-- Embeds `str::starts_with`. -/
def sStartsWith (p s : String) : Bool := p.data.isPrefixOf s.data

/-- Embeds `str::ends_with`. -/
def sEndsWith (p s : String) : Bool := p.data.isSuffixOf s.data

/-- String prefix test (same as `sStartsWith`, argument order of
`String.isPrefixOf`). -/
def sIsPrefixOf (p s : String) : Bool := p.data.isPrefixOf s.data

/-- Embeds `str` slicing `s[n..]` / `String::drop` by characters. -/
def sDrop (s : String) (n : Nat) : String := ⟨s.data.drop n⟩

/-- Embeds dropping `n` characters from the end. -/
def sDropRight (s : String) (n : Nat) : String := ⟨s.data.take (s.data.length - n)⟩

/-- Embeds `str::split(sep)` on the character list: the segments between
occurrences of `sep` (always at least one segment). -/
def splitCh (sep : Char) : List Char → List (List Char)
  | [] => [[]]
  | c :: rest =>
    if c = sep then [] :: splitCh sep rest
    else
      match splitCh sep rest with
      | [] => [[c]]
      | h :: t => (c :: h) :: t

/-- `str::split(sep)` as strings. -/
def sSplit (sep : Char) (s : String) : List String :=
  (splitCh sep s.data).map (fun l => (⟨l⟩ : String))

/-- Split at every `\r\n`, embedding `split("\r\n")` on a head whose
terminator has already been removed. -/
def splitCRLF : List Char → List (List Char)
  | [] => [[]]
  | '\r' :: '\n' :: rest => [] :: splitCRLF rest
  | c :: rest =>
    match splitCRLF rest with
    | [] => [[c]]
    | h :: t => (c :: h) :: t

/-- Embeds Rust `str::split_once(c)` on the character list of a string:
split at the first occurrence of `c`, if any. -/
def splitOnceCh (c : Char) : List Char → Option (List Char × List Char)
  | [] => none
  | x :: xs =>
    if x = c then some ([], xs)
    else (splitOnceCh c xs).map (fun p => (x :: p.1, p.2))

/-- `str::split_once` on strings. -/
def splitOnceStr (c : Char) (s : String) : Option (String × String) :=
  (splitOnceCh c s.data).map (fun p => (⟨p.1⟩, ⟨p.2⟩))

/-- Numeric value of a list of decimal digit characters. -/
def digitsVal (l : List Char) : Nat := l.foldl (fun a c => a * 10 + (c.toNat - 48)) 0

/-- Embeds Rust `str::parse::<u16>`: an optional leading `+`, at least one
decimal digit, value below 2^16. -/
def parseU16 (s : String) : Option Nat :=
  let t := if sStartsWith "+" s then sDrop s 1 else s
  if t.data ≠ [] ∧ t.data.all (fun c => c.isDigit) then
    let v := digitsVal t.data
    if v < 65536 then some v else none
  else none

/-- Embeds Rust `str::parse::<usize>`.  The 64-bit overflow bound is not
modelled (the parsed configuration sizes are far below it). -/
def parseUsize (s : String) : Option Nat :=
  let t := if sStartsWith "+" s then sDrop s 1 else s
  if t.data ≠ [] ∧ t.data.all (fun c => c.isDigit) then some (digitsVal t.data)
  else none

/-- Modelled from the spec: `utils::HttpHeaders` (the `utils` module file is
not in the source tree).  Per §4.2 of the spec, header names are
case-insensitive, values are trimmed, and duplicate names are last-wins. -/
structure HttpHeaders where
  entries : List (String × String)
deriving DecidableEq

def HttpHeaders.empty : HttpHeaders := ⟨[]⟩

def HttpHeaders.insert (h : HttpHeaders) (k v : String) : HttpHeaders :=
  ⟨(h.entries.filter (fun e => sToLower e.1 != sToLower k)) ++ [(k, sTrim v)]⟩

def HttpHeaders.get (h : HttpHeaders) (k : String) : Option String :=
  ((h.entries.filter (fun e => sToLower e.1 == sToLower k)).getLast?).map (fun e => e.2)

/-- `HttpMethod` from the `utils` module, modelled from the spec §4.2:
an enum with GET, POST, DELETE and Other(string). -/
inductive HttpMethod
  | GET
  | POST
  | DELETE
  | Other (s : String)
deriving DecidableEq

def HttpMethod.from_str (s : String) : HttpMethod :=
  if s = "GET" then .GET
  else if s = "POST" then .POST
  else if s = "DELETE" then .DELETE
  else .Other s

/-- `HttpRequest` as used by the connection engine (src/read.rs,
src/write.rs, src/handler.rs): method, path, version, headers and an
optional body.  (The variant in src/request.rs lacks the body field; the
handlers require it, so the body is included as the spec §4.2 describes.) -/
structure HttpRequest where
  method : HttpMethod
  path : String
  version : String
  headers : HttpHeaders
  body : Option (List Nat)
deriving DecidableEq

/-- Scan for the first `\r\n\r\n`, returning the bytes before it and after it. -/
def headSplitAux : List Nat → List Nat → Option (List Nat × List Nat)
  | acc, 13 :: 10 :: 13 :: 10 :: rest => some (acc.reverse, rest)
  | acc, c :: rest => headSplitAux (c :: acc) rest
  | _, [] => none

def headSplit (b : List Nat) : Option (List Nat × List Nat) := headSplitAux [] b

/-- Modelled from the spec §4.2: parsing of a complete request head.  The
request line must have exactly three whitespace-separated tokens; header
lines are split at the first colon and inserted case-insensitively. -/
def parseHead (buffer : List Nat) : Option HttpRequest :=
  match headSplit buffer with
  | none => none
  | some (head, body) =>
    match (splitCRLF (asciiStr head).data).map (fun l => (⟨l⟩ : String)) with
    | [] => none
    | requestLine :: headerLines =>
      match (sSplit ' ' requestLine).filter (fun t => t != "") with
      | [m, p, v] =>
        let hs := headerLines.foldl
          (fun h line =>
            match splitOnceStr ':' (sTrim line) with
            | some kv => h.insert kv.1 kv.2
            | none => h) HttpHeaders.empty
        some { method := HttpMethod.from_str m, path := p, version := v, headers := hs,
               body := if body = [] then none else some body }
      | _ => none

/-- Declared body length of a parsed request: the Content-Length header
value, 0 when absent (spec §4.2). -/
def contentLengthOf (r : HttpRequest) : Nat :=
  ((r.headers.get "content-length").bind parseUsize).getD 0

/-- The claim C3 reference predicate, stated from the words of the spec: the
complete request has been received, i.e. the head terminated by `\r\n\r\n`
plus a body of the length declared by the Content-Length header (empty body
when absent). -/
def specComplete (b : List Nat) : Bool :=
  match headSplit b with
  | some (_, body) =>
    match parseHead b with
    | some r => decide (contentLengthOf r ≤ body.length)
    | none => false
  | none => false

/-! ### src/models.rs : `SimpleResponse` -/

/-- `SimpleResponse` from src/models.rs: an in-memory byte buffer with a
consumption cursor. -/
structure SimpleResponse where
  data : List Nat
  index : Nat
deriving DecidableEq

def SimpleResponse.new (data : List Nat) : SimpleResponse := { data := data, index := 0 }

/-- `peek` from src/models.rs returns the slice `&data[index..]`.  The Rust
slice expression panics when `index > data.len()`; `peek` here is the slice
when in bounds, and `peekInBounds` records the bound the Rust slice needs. -/
def SimpleResponse.peek (r : SimpleResponse) : List Nat := r.data.drop r.index

/-- The side condition under which the Rust `&data[index..]` does not panic. -/
def SimpleResponse.peekInBounds (r : SimpleResponse) : Bool :=
  decide (r.index ≤ r.data.length)

/-- `next` from src/models.rs: `index += n`. -/
def SimpleResponse.next (r : SimpleResponse) (n : Nat) : SimpleResponse :=
  { r with index := r.index + n }

/-- `is_finished` from src/models.rs: `index >= data.len()`. -/
def SimpleResponse.is_finished (r : SimpleResponse) : Bool :=
  decide (r.data.length ≤ r.index)

/-- A consumer trace: at each step the consumer takes the first `n` bytes of
the current `peek` slice and advances by `n` (the write loop in src/write.rs
does exactly this with `n` the number of bytes the socket accepted). -/
def SimpleResponse.run (r : SimpleResponse) : List Nat → SimpleResponse × List (List Nat)
  | [] => (r, [])
  | n :: ns =>
    let slice := (r.peek).take n
    let rest := (r.next n).run ns
    (rest.1, slice :: rest.2)

/-- The trace is valid when every step advances by at most the length of the
slice most recently returned by `peek`. -/
def SimpleResponse.validTrace (r : SimpleResponse) : List Nat → Prop
  | [] => True
  | n :: ns => n ≤ (r.peek).length ∧ (r.next n).validTrace ns

/-! ### src/request.rs : `HttpRequestBuilder` -/

namespace Request

/-- The length-4 window comparison `w == b"\r\n\r\n"` at one position. -/
def windowIsCRLFCRLF (l : List Nat) : Bool := [13, 10, 13, 10].isPrefixOf l

/-- Embeds `buffer.windows(4).any(|w| w == b"\r\n\r\n")` from
`HttpRequestBuilder::done` (src/request.rs): some position of the buffer
starts the `\r\n\r\n` window. -/
def hasHeadTerminator : List Nat → Bool
  | [] => false
  | c :: rest => windowIsCRLFCRLF (c :: rest) || hasHeadTerminator rest

/-- `HttpRequestBuilder` from src/request.rs.  Only the byte buffer is
modelled; the cached parsed `request` field is written by `append` but never
read by `done`, the subject of claim C3. -/
structure HttpRequestBuilder where
  buffer : List Nat
deriving DecidableEq

/-- `HttpRequestBuilder::new` from src/request.rs lines 20-25. -/
def HttpRequestBuilder.new : HttpRequestBuilder := ⟨[]⟩

/-- `append` from src/request.rs extends the buffer (the parse into the
cached request happens afterwards and does not affect the buffer). -/
def HttpRequestBuilder.append (b : HttpRequestBuilder) (data : List Nat) : HttpRequestBuilder :=
  ⟨b.buffer ++ data⟩

/-- `done` from src/request.rs lines 59-61. -/
def HttpRequestBuilder.done (b : HttpRequestBuilder) : Bool :=
  hasHeadTerminator b.buffer

end Request

/-! ### src/response.rs : `HttpResponseBuilder` -/

/-- The read-only filesystem as the response code sees it: a map from path
strings to file contents (`fs::read`). -/
def Fs := String → Option (List Nat)

/-- Modelled from the spec §4.10: the session cookie attached to responses
(the `utils::cookie` module file is not in the source tree). -/
structure Cookie where
  session_id : String
deriving DecidableEq

def Cookie.to_header_value (c : Cookie) : String :=
  "session_id=" ++ c.session_id ++ "; Path=/; HttpOnly"

/-- `HttpResponseBuilder` from src/response.rs. -/
structure HttpResponseBuilder where
  status_code : Nat
  status_text : String
  headers : HttpHeaders
  body : List Nat
deriving DecidableEq

def HttpResponseBuilder.new (code : Nat) (text : String) : HttpResponseBuilder :=
  { status_code := code, status_text := text, headers := HttpHeaders.empty, body := [] }

def HttpResponseBuilder.header (b : HttpResponseBuilder) (k v : String) : HttpResponseBuilder :=
  { b with headers := b.headers.insert k v }

/-- The `body` builder method of src/response.rs (named `withBody` here
because `body` is taken by the field accessor). -/
def HttpResponseBuilder.withBody (b : HttpResponseBuilder) (d : List Nat) : HttpResponseBuilder :=
  { b with body := d }

/-- Modelled from the spec: the `cookie` builder method used by the engine
(src/read.rs, src/handler.rs) attaches the session Set-Cookie header. -/
def HttpResponseBuilder.cookie (b : HttpResponseBuilder) (c : Cookie) : HttpResponseBuilder :=
  b.header "Set-Cookie" c.to_header_value

def headerLineBytes (e : String × String) : List Nat :=
  strBytes (e.1 ++ ": " ++ e.2 ++ "\r\n")

/-- `build` from src/response.rs: auto-adds Content-Length, then emits the
status line, the header lines, a blank line, and the body bytes. -/
def HttpResponseBuilder.build (b : HttpResponseBuilder) : List Nat :=
  let hs := b.headers.insert "Content-Length" (toString b.body.length)
  strBytes ("HTTP/1.1 " ++ toString b.status_code ++ " " ++ b.status_text ++ "\r\n")
    ++ (hs.entries.map headerLineBytes).flatten
    ++ strBytes "\r\n"
    ++ b.body

def HttpResponseBuilder.ok : HttpResponseBuilder := HttpResponseBuilder.new 200 "OK"

def HttpResponseBuilder.not_found : HttpResponseBuilder := HttpResponseBuilder.new 404 "Not Found"

def HttpResponseBuilder.method_not_allowed : HttpResponseBuilder :=
  HttpResponseBuilder.new 405 "Method Not Allowed"

def HttpResponseBuilder.no_content : HttpResponseBuilder := HttpResponseBuilder.new 204 "No Content"

def HttpResponseBuilder.internal_error : HttpResponseBuilder :=
  HttpResponseBuilder.new 500 "Internal Server Error"

/-- Modelled from the spec §7: convenience constructor used by the engine. -/
def HttpResponseBuilder.bad_request : HttpResponseBuilder := HttpResponseBuilder.new 400 "Bad Request"

/-- Modelled from the spec §4.5: convenience constructor used by the engine. -/
def HttpResponseBuilder.created : HttpResponseBuilder := HttpResponseBuilder.new 201 "Created"

/-- Modelled from the spec §7: convenience constructor used by the engine. -/
def HttpResponseBuilder.unsupported_media_type : HttpResponseBuilder :=
  HttpResponseBuilder.new 415 "Unsupported Media Type"

/-- Modelled from the spec §4.5: redirect responses carry a Location header
and no body. -/
def HttpResponseBuilder.redirect (target : String) : HttpResponseBuilder :=
  (HttpResponseBuilder.new 301 "Moved Permanently").header "Location" target

/-- `detect_content_type` from src/response.rs (imported by src/models.rs):
content type by file extension. -/
def detect_content_type (path : String) : String :=
  if sEndsWith ".html" path || sEndsWith ".htm" path then "text/html"
  else if sEndsWith ".css" path then "text/css"
  else if sEndsWith ".js" path then "application/javascript"
  else if sEndsWith ".json" path then "application/json"
  else if sEndsWith ".png" path then "image/png"
  else if sEndsWith ".jpg" path || sEndsWith ".jpeg" path then "image/jpeg"
  else if sEndsWith ".gif" path then "image/gif"
  else if sEndsWith ".svg" path then "image/svg+xml"
  else if sEndsWith ".txt" path then "text/plain"
  else "application/octet-stream"

/-- `HttpResponseBuilder::serve_error_page` from src/response.rs lines
86-106: serve the configured error page, falling back to a minimal response
with the same status code and text when the read fails. -/
def HttpResponseBuilder.serve_error_page (fs : Fs) (error_page_path : String)
    (status_code : Nat) (status_text : String) : List Nat :=
  match fs error_page_path with
  | some content =>
    (((HttpResponseBuilder.new status_code status_text).header "Content-Type" "text/html").withBody
      content).build
  | none => (HttpResponseBuilder.new status_code status_text).build

/-- Modelled from the spec: the engine variant of `serve_error_page` called
with a cookie by src/read.rs and src/handler.rs; as the src/response.rs
version plus the session Set-Cookie header. -/
def serve_error_page_c (fs : Fs) (error_page_path : String) (code : Nat) (text : String)
    (c : Cookie) : List Nat :=
  match fs error_page_path with
  | some content =>
    ((((HttpResponseBuilder.new code text).header "Content-Type" "text/html").cookie c).withBody
      content).build
  | none => ((HttpResponseBuilder.new code text).cookie c).build

/-! ### src/config.rs : data model -/

structure ErrorPage where
  code : Nat
  path : String
deriving DecidableEq

structure Route where
  path : String
  methods : List String
  root : String
  default_file : Option String
  redirect : Option String
  cgi : Option String
  list_directory : Option Bool
deriving DecidableEq

structure ServerConfig where
  server_name : String
  host : String
  ports : List Nat
  default_server : Bool
  error_pages : List ErrorPage
  client_max_body_size : Nat
  root : String
  routes : List Route
deriving DecidableEq

structure Config where
  servers : List ServerConfig
deriving DecidableEq

/-! ### src/read.rs : route matching, host selection, error pages -/

/-- The filter predicate of `find_matching_route` (src/read.rs lines 53-65):
`/` always matches; otherwise the request path must equal the route path or
start with the route path followed by `/`. -/
def routeMatches (route : Route) (request_path : String) : Bool :=
  if route.path = "/" then true
  else (request_path == route.path) || sIsPrefixOf (route.path ++ "/") request_path

/-- One comparison step of Rust `Iterator::max_by_key` on the route path
length (ties keep the later element, as `max_by_key` does). -/
def maxRouteStep (acc : Option Route) (r : Route) : Option Route :=
  match acc with
  | none => some r
  | some b => if b.path.length ≤ r.path.length then some r else some b

/-- Embeds Rust `Iterator::max_by_key` on the route path length: the last
element attaining the maximum. -/
def maxByPathLen (rs : List Route) : Option Route :=
  rs.foldl maxRouteStep none

/-- `find_matching_route` from src/read.rs lines 53-65. -/
def find_matching_route (server : ServerConfig) (request_path : String) : Option Route :=
  maxByPathLen (server.routes.filter (fun r => routeMatches r request_path))

/-- `Router::find_route` from src/router.rs lines 33-39: longest route whose
path is a plain string prefix of the request path (no segment-boundary
check). -/
def Router.find_route (config_routes : List Route) (path : String) : Option Route :=
  maxByPathLen (config_routes.filter (fun r => sIsPrefixOf r.path path))

/-- `ListenerInfo` as used by src/read.rs (its defining module is not in the
source tree); modelled from the spec §3 Listener record. -/
structure ListenerInfo where
  servers : List ServerConfig
  default_server_index : Nat

/-- `extract_hostname` from src/read.rs lines 68-73. -/
def extract_hostname (headers : HttpHeaders) : String :=
  ((headers.get "host").bind (fun h => (sSplit ':' h).head?)).getD ""

/-- `get_error_page_path` from src/read.rs lines 76-83 (also src/error.rs). -/
def get_error_page_path (server : ServerConfig) (status_code : Nat) : String :=
  ((server.error_pages.find? (fun ep => ep.code == status_code)).map (fun ep => ep.path)).getD
    ("./error_pages/" ++ toString status_code ++ ".html")

/-- `select_server` from src/read.rs lines 85-113.  The Rust code panics
when the default index is out of range; that case is modelled as `none`. -/
def select_server (info : ListenerInfo) (hostname : String) : Option ServerConfig :=
  match info.servers.find? (fun s => s.server_name == hostname) with
  | some srv => some srv
  | none => info.servers[info.default_server_index]?

/-! ### src/read.rs : `resolve_file_path`

The filesystem is modelled as a tree of directories and files (no symlinks);
`Path::canonicalize` is `..`-normalisation relative to the process root plus
an existence check, failing exactly when the normalised path does not exist.
Paths are component lists; `Path::starts_with` and `Path::join` are the
component-wise prefix test and append. -/

inductive FsTree where
  | file (content : List Nat)
  | dir (children : List (String × FsTree))

/-- Walk a component path down the tree. -/
def FsTree.lookup : FsTree → List String → Option FsTree
  | t, [] => some t
  | .file _, _ :: _ => none
  | .dir cs, c :: rest =>
    match cs.find? (fun e => e.1 == c) with
    | some e => e.2.lookup rest
    | none => none

def existsPath (fs : FsTree) (p : List String) : Bool := (fs.lookup p).isSome

/-- One step of `..`-normalisation: `..` pops the last component (staying at
the root on underflow, as POSIX does for `/..`). -/
def normStep (acc : List String) (c : String) : List String :=
  if c = ".." then acc.dropLast else acc ++ [c]

def normalize (cs : List String) : List String := cs.foldl normStep []

/-- `Path::canonicalize` in the tree model: normalise, then require the
result to exist. -/
def canonicalize (fs : FsTree) (p : List String) : Option (List String) :=
  let n := normalize p
  if existsPath fs n then some n else none

/-- The components of a path string, as Rust `Path` iteration yields them:
empty components and `.` are skipped, `..` is kept. -/
def pathComponents (s : String) : List String :=
  (sSplit '/' s).filter (fun c => c != "" && c != ".")

/-- Embeds `str::trim_start_matches('/')`. -/
def trimLeadingSlashes (s : String) : String := ⟨s.data.dropWhile (fun c => c == '/')⟩

/-- Embeds `request_path.strip_prefix(&route.path).unwrap_or("")`. -/
def stripRoutePrefix (request_path route_path : String) : String :=
  if sIsPrefixOf route_path request_path then sDrop request_path route_path.length else ""

/-- Embeds `Path::parent`: drop the last component; `none` at the root. -/
def parentPath (p : List String) : Option (List String) :=
  if p = [] then none else some p.dropLast

/-- `resolve_file_path` from src/read.rs lines 9-50, on the tree model.  The
Rust function returns the final path rendered as a string; here the
component list is returned (the rendering is injective on it). -/
def resolve_file_path (fsT : FsTree) (server : ServerConfig) (route : Route)
    (request_path : String) : Option (List String) :=
  let base := server.root ++ "/" ++ route.root
  match canonicalize fsT (pathComponents base) with
  | none => none
  | some base_path =>
    let relative := trimLeadingSlashes (stripRoutePrefix request_path route.path)
    let full_path := base_path ++ pathComponents relative
    let canonicalRes : Option (List String) :=
      match canonicalize fsT full_path with
      | some p => some p
      | none =>
        match parentPath full_path with
        | none => none
        | some par =>
          match canonicalize fsT par with
          | none => none
          | some cp => if base_path.isPrefixOf cp then some full_path else none
    match canonicalRes with
    | none => none
    | some c => if base_path.isPrefixOf c then some c else none

/-- Render a component path the way `Path::to_str` shows it. -/
def renderPath (p : List String) : String := String.intercalate "/" p

/-! ### src/models.rs : `FileResponse`

The open file handle and its `BufReader` are modelled by `reader`, the bytes
of the file not yet read; the fixed 8192-byte array together with `buf_len`
is modelled by `buffer`, the filled portion (so `buf_len = buffer.length`). -/

structure FileResponse where
  headers : List Nat
  headers_index : Nat
  headers_sent : Bool
  reader : List Nat
  buffer : List Nat
  buf_index : Nat
  finished : Bool
deriving DecidableEq

/-- `FileResponse::new` from src/models.rs lines 51-74: open the file (an
open failure surfaces as an error), read its length from metadata, and build
the header block up front. -/
def FileResponse.new (fs : Fs) (file_path : String) (cookie : Cookie) :
    Except Unit FileResponse :=
  let content_type := detect_content_type file_path
  match fs file_path with
  | none => .error ()
  | some content =>
    .ok
      { headers :=
          strBytes ("HTTP/1.1 200 OK\r\nContent-Length: " ++ toString content.length ++
            "\r\nContent-Type: " ++ content_type ++ "\r\nSet-Cookie: " ++
            cookie.to_header_value ++ "\r\n\r\n"),
        headers_index := 0, headers_sent := false,
        reader := content, buffer := [], buf_index := 0, finished := false }

/-- `fill_buffer` from src/models.rs lines 77-87: when the buffer is drained
and the file is not finished, read up to 8192 bytes; a zero-length read
marks the response finished. -/
def FileResponse.fill_buffer (fr : FileResponse) : FileResponse :=
  if fr.buffer.length ≤ fr.buf_index ∧ fr.finished = false then
    let n := min 8192 fr.reader.length
    { fr with buffer := fr.reader.take 8192, reader := fr.reader.drop 8192,
              buf_index := 0, finished := decide (n = 0) }
  else fr

/-- `peek` from src/models.rs: header bytes first, then the buffered slice. -/
def FileResponse.peek (fr : FileResponse) : List Nat :=
  if fr.headers_sent = false then fr.headers.drop fr.headers_index
  else fr.buffer.drop fr.buf_index

/-- `next` from src/models.rs lines 99-108. -/
def FileResponse.next (fr : FileResponse) (n : Nat) : FileResponse :=
  if fr.headers_sent = false then
    let i := fr.headers_index + n
    { fr with headers_index := i, headers_sent := decide (fr.headers.length ≤ i) }
  else { fr with buf_index := fr.buf_index + n }

/-- `is_finished` from src/models.rs lines 110-112. -/
def FileResponse.is_finished (fr : FileResponse) : Bool :=
  fr.headers_sent && fr.finished && decide (fr.buffer.length ≤ fr.buf_index)

/-- `fill_if_needed` from src/models.rs lines 114-119. -/
def FileResponse.fill_if_needed (fr : FileResponse) : FileResponse :=
  if fr.headers_sent = true ∧ fr.buffer.length ≤ fr.buf_index ∧ fr.finished = false then
    fr.fill_buffer
  else fr

/-- The write loop of src/write.rs as a driver: while not finished, call
`fill_if_needed`, take the whole `peek` slice, and `next` past it.  Returns
the emitted slices in order. -/
def FileResponse.drain : Nat → FileResponse → List (List Nat) × FileResponse
  | 0, fr => ([], fr)
  | fuel + 1, fr =>
    if fr.is_finished then ([], fr)
    else
      let fr1 := fr.fill_if_needed
      let s := fr1.peek
      let rest := FileResponse.drain fuel (fr1.next s.length)
      (s :: rest.1, rest.2)

/-- Fuel sufficient for `FileResponse.drain` to finish from a given state:
one iteration per at-least-one-byte fill plus the final zero fill and a
possible leftover flush. -/
def FileResponse.drainFuel (fr : FileResponse) : Nat :=
  if fr.is_finished then 0
  else fr.reader.length + 2 + (if fr.buf_index < fr.buffer.length then 1 else 0)

/-- The `Box<dyn HttpResponseCommon>` of the engine: a tagged union of the
two response producers (the CGI variant is an external collaborator, out of
the modelled core). -/
inductive EngineResponse where
  | simple (r : SimpleResponse)
  | file (r : FileResponse)
deriving DecidableEq

def EngineResponse.peek : EngineResponse → List Nat
  | .simple r => r.peek
  | .file r => r.peek

def EngineResponse.next : EngineResponse → Nat → EngineResponse
  | .simple r, n => .simple (r.next n)
  | .file r, n => .file (r.next n)

def EngineResponse.is_finished : EngineResponse → Bool
  | .simple r => r.is_finished
  | .file r => r.is_finished

def EngineResponse.fill_if_needed : EngineResponse → EngineResponse
  | .simple r => .simple r
  | .file r => .file r.fill_if_needed

/-! ### src/handler.rs -/

/-- Embeds Rust `str::split('/')` on the character list. -/
def splitSlash (l : List Char) : List (List Char) := splitCh '/' l

/-- Embeds `request.path.split('/').last().unwrap_or("")` from
`handle_post` (src/handler.rs line 115). -/
def lastSegment (p : String) : String := ⟨((splitSlash p.data).getLast?).getD []⟩

/-- The Content-Type prefixes accepted for a direct upload
(src/handler.rs lines 103-108). -/
def uploadTypeOk (ct : String) : Bool :=
  sStartsWith "application/" ct || sStartsWith "image/" ct || sStartsWith "audio/" ct ||
  sStartsWith "video/" ct || sStartsWith "font/" ct || sStartsWith "text/" ct

/-- Embeds `content_type.split('/').nth(1).unwrap_or("dat")`
(src/handler.rs line 111). -/
def subtypeOf (ct : String) : String :=
  match (splitSlash ct.data).drop 1 with
  | [] => "dat"
  | h :: _ => ⟨h⟩

/-- Pointwise filesystem update: the single file at `path` now holds `data`. -/
def updateFs (fs : Fs) (path : String) (data : List Nat) : Fs :=
  fun p => if p = path then some data else fs p

/-- Pointwise filesystem removal (`fs::remove_file`). -/
def removeFs (fs : Fs) (path : String) : Fs :=
  fun p => if p = path then none else fs p

/-- Modelled from the spec §4.5: `write_file` (its module is not in the
source tree) writes the raw body to the single file at `path` and responds
201; embedded as the filesystem update plus the response bytes. -/
def write_file (fs : Fs) (path : String) (data : List Nat) (cookie : Cookie) :
    List Nat × Fs :=
  ((((HttpResponseBuilder.created).cookie cookie).withBody
      (strBytes "File uploaded successfully")).build,
    updateFs fs path data)

/-- The per-part save loop of the multipart branch of `handle_post`
(src/handler.rs lines 150-165), with its early return on a failing write. -/
def savePartsLoop (cookie : Cookie) (file_path : String) :
    List (String × List Nat) → Fs → List String → Fs × List String × Option (List Nat)
  | [], fs, saved => (fs, saved, none)
  | (filename, bytes) :: rest, fs, saved =>
    let save_path :=
      if sEndsWith "/" file_path then file_path ++ filename else file_path ++ "/" ++ filename
    let wr := write_file fs save_path bytes cookie
    if (strBytes "HTTP/1.1 500").isPrefixOf wr.1 || (strBytes "HTTP/1.1 4").isPrefixOf wr.1 then
      (wr.2, saved, some wr.1)
    else savePartsLoop cookie file_path rest wr.2 (saved ++ [filename])

/-- `handle_post` from src/handler.rs lines 83-183.  The multipart
dissection helpers `extract_boundary` and `extract_multipart_files` are
external collaborators (spec §6) passed as parameters; `uuid` is the
generated `Uuid::new_v4` rendering. -/
def handle_post (extract_boundary : String → Option String)
    (extract_multipart_files : List Nat → String → List (String × List Nat))
    (fs : Fs) (uuid : String) (file_path : String) (request : HttpRequest)
    (cookie : Cookie) : List Nat × Fs :=
  match request.body with
  | none =>
    ((((HttpResponseBuilder.bad_request).withBody (strBytes "Empty body")).cookie cookie).build, fs)
  | some body =>
    match request.headers.get "content-type" with
    | none => (((HttpResponseBuilder.bad_request).withBody (strBytes "Missing Content-Type")).build, fs)
    | some content_type =>
      if uploadTypeOk content_type then
        let b := subtypeOf content_type
        let filename : String :=
          if lastSegment request.path ≠ "" then "" else "/upload_" ++ uuid ++ "." ++ b
        let save_path := file_path ++ filename
        write_file fs save_path body cookie
      else if sStartsWith "multipart/form-data" content_type then
        match extract_boundary content_type with
        | none =>
          (((HttpResponseBuilder.bad_request).withBody (strBytes "Missing multipart boundary")).build, fs)
        | some boundary =>
          let files := extract_multipart_files body boundary
          if files = [] then
            (((HttpResponseBuilder.bad_request).withBody
                (strBytes "Invalid multipart body or no files found")).build, fs)
          else
            match savePartsLoop cookie file_path files fs [] with
            | (fs2, _, some failResp) => (failResp, fs2)
            | (fs2, saved, none) =>
              (((HttpResponseBuilder.created).withBody
                  (strBytes ("Successfully uploaded " ++ toString saved.length ++ " file(s): " ++
                    String.intercalate ", " saved))).build, fs2)
      else
        (((HttpResponseBuilder.unsupported_media_type).withBody
            (strBytes "Unsupported Content-Type")).build, fs)

/-- Embeds `str::trim_matches('/')`. -/
def trimSlashes (s : String) : String :=
  ⟨((s.data.dropWhile (fun c => c == '/')).reverse.dropWhile (fun c => c == '/')).reverse⟩

/-- `handle_get` from src/handler.rs lines 12-68.  The directory-listing
generator `serve_directory_listing` is an external collaborator (spec §6)
passed as `dirListF`. -/
def handle_get (dirListF : String → String → String → Cookie → List Nat) (fs : Fs)
    (request_path : String) (server : ServerConfig) (request : HttpRequest)
    (cookie : Cookie) : EngineResponse :=
  let path := trimSlashes request.path
  match server.routes.find? (fun r => trimSlashes r.path == path) with
  | some route =>
    if route.list_directory = some true then
      .simple (SimpleResponse.new (dirListF server.root route.root route.path cookie))
    else
      match route.default_file with
      | some default_file =>
        let full_path := server.root ++ "/" ++ route.root ++ "/" ++ default_file
        (match FileResponse.new fs full_path cookie with
        | .ok fr => .file fr
        | .error _ =>
          match FileResponse.new fs (get_error_page_path server 404) cookie with
          | .ok fr => .file fr
          | .error _ => .simple (SimpleResponse.new (HttpResponseBuilder.not_found).build))
      | none => handleGetFallback fs request_path server cookie
  | none => handleGetFallback fs request_path server cookie
where
  /-- The shared fallback tail of `handle_get` (src/handler.rs lines 54-67). -/
  handleGetFallback (fs : Fs) (request_path : String) (server : ServerConfig)
      (cookie : Cookie) : EngineResponse :=
    match FileResponse.new fs request_path cookie with
    | .ok fr => .file fr
    | .error _ =>
      match FileResponse.new fs (get_error_page_path server 404) cookie with
      | .ok fr => .file fr
      | .error _ =>
        .simple (SimpleResponse.new (((HttpResponseBuilder.not_found).cookie cookie).build))

/-- `handle_delete` from src/handler.rs lines 70-81. -/
def handle_delete (fs : Fs) (file_path : String) (error_page_path : String)
    (cookie : Cookie) : List Nat × Fs :=
  match fs file_path with
  | some _ => ((HttpResponseBuilder.no_content).build, removeFs fs file_path)
  | none => (serve_error_page_c fs error_page_path 404 "Not Found" cookie, fs)

/-- Modelled from the spec §4.5: the engine variant of
`handle_method_not_allowed` called by src/read.rs with the server and the
cookie: 405 with the comma-joined Allow header and the configured 405
error-page body when readable, minimal otherwise. -/
def handle_method_not_allowed (fs : Fs) (allowed : List String) (server : ServerConfig)
    (c : Cookie) : List Nat :=
  let allow := String.intercalate ", " allowed
  match fs (get_error_page_path server 405) with
  | some content =>
    (((((HttpResponseBuilder.method_not_allowed).header "Allow" allow).header
        "Content-Type" "text/html").cookie c).withBody content).build
  | none =>
    (((((HttpResponseBuilder.method_not_allowed).header "Allow" allow).header
        "Content-Type" "text/plain").cookie c).withBody (strBytes "Method Not Allowed")).build

/-! ### The connection engine (src/read.rs and src/write.rs) -/

namespace Engine

inductive ParserState
  | Headline
  | Headers
  | Body
  | Complete
deriving DecidableEq

/-- Modelled from the spec §3/§4.2: the incremental request builder used by
src/read.rs and src/write.rs (its file is not in the source tree;
src/request.rs holds an older builder without the parser state, treated
separately under claim C3).  The buffer accumulates the appended bytes; of
the parser state only `Complete` (written by `set_state`) affects the
modelled behaviour. -/
structure RequestBuilder where
  buffer : List Nat
  pstate : ParserState
deriving DecidableEq

def RequestBuilder.new : RequestBuilder := ⟨[], .Headline⟩

/-- Modelled from the spec §4.2: the head terminator has been seen. -/
def RequestBuilder.header_done (b : RequestBuilder) : Bool := (headSplit b.buffer).isSome

/-- Modelled from the spec §4.6: the accumulated body bytes so far (the
bytes after the head terminator). -/
def RequestBuilder.body_len (b : RequestBuilder) : Nat :=
  match headSplit b.buffer with
  | some x => x.2.length
  | none => 0

/-- Modelled from the spec §4.2: the full request (head plus declared body
length) has been received, or the parser was forced to `Complete`. -/
def RequestBuilder.done (b : RequestBuilder) : Bool :=
  b.pstate == .Complete || specComplete b.buffer

def RequestBuilder.set_state (b : RequestBuilder) (st : ParserState) : RequestBuilder :=
  { b with pstate := st }

/-- Modelled from the spec §4.2: the parsed request, available once done. -/
def RequestBuilder.get (b : RequestBuilder) : Option HttpRequest :=
  if b.done then parseHead b.buffer else none

/-- Modelled from the spec §4.2: the parsed head, available as soon as the
head terminator has been seen (used for Host resolution). -/
def RequestBuilder.get_before_done (b : RequestBuilder) : Option HttpRequest :=
  if b.header_done then parseHead b.buffer else none

/-- Modelled from the spec §4.2: append advances the incremental parse; a
complete head whose request line is malformed is a parse error.  The buffer
keeps the appended bytes in either case (the Rust builder mutates in
place); the Bool is the `Result` of the Rust `append`. -/
def RequestBuilder.append (b : RequestBuilder) (data : List Nat) : RequestBuilder × Bool :=
  let b1 : RequestBuilder := { b with buffer := b.buffer ++ data }
  if b1.header_done ∧ (parseHead b1.buffer).isNone then (b1, false) else (b1, true)

inductive Status
  | Read
  | Write
  | Finish
deriving DecidableEq

/-- The per-connection state used by src/read.rs and src/write.rs, modelled
from the spec §3 (its defining module is not in the source tree).  The
last-activity timestamp `ttl` is not modelled: no claim concerns timeouts. -/
structure SocketStatus where
  status : Status
  request : RequestBuilder
  response : Option EngineResponse
  server_selected : Bool
  body_too_large : Bool
  max_body_size : Option Nat
deriving DecidableEq

/-- The connection record; its socket is modelled by the event lists fed to
the state functions plus the `shutdown` flag (`stream.shutdown`). -/
structure SocketData where
  status : SocketStatus
  shutdown : Bool
deriving DecidableEq

/-- One result of `stream.read` in the read loop: `Ok(n)` with the bytes
read, `Ok(0)` (peer closed), `WouldBlock`, or another error. -/
inductive ReadEvent
  | chunk (data : List Nat)
  | eof
  | wouldBlock
  | ioErr

/-- `read_request` from src/read.rs lines 115-162, driven by the list of
read results the socket will deliver; an exhausted list stands for a socket
with no further data, i.e. `WouldBlock`.  The Rust panics (invalid default
server index, missing listener info) are modelled as the `None` return. -/
def read_request : List ReadEvent → SocketStatus → Option ListenerInfo →
    Option Bool × SocketStatus
  | [], s, _ => (some false, s)
  | ev :: rest, s, li =>
    match ev with
    | .eof => (none, s)
    | .ioErr => (none, s)
    | .wouldBlock => (some false, s)
    | .chunk data =>
      match s.request.append data with
      | (b1, ok) =>
        if ok = false then (none, { s with request := b1 })
        else
          let s1 : SocketStatus := { s with request := b1 }
          let sel : Option SocketStatus :=
            if b1.header_done ∧ s1.server_selected = false then
              match b1.get_before_done with
              | none => none
              | some req =>
                match li with
                | none => none
                | some info =>
                  match select_server info (extract_hostname req.headers) with
                  | none => none
                  | some selected =>
                    some { s1 with max_body_size := some selected.client_max_body_size,
                                   server_selected := true }
            else some s1
          match sel with
          | none => (none, s1)
          | some s2 =>
            match s2.max_body_size with
            | some max =>
              if max < s2.request.body_len then
                (some true, { s2 with body_too_large := true,
                                      request := s2.request.set_state .Complete })
              else if s2.request.done then (some true, s2)
              else read_request rest s2 li
            | none =>
              if s2.request.done then (some true, s2)
              else read_request rest s2 li

/-- The external collaborators the read handler calls (spec §6): session
handling, CGI, directory listing, multipart dissection, and the generated
UUID for uploads. -/
structure Externals where
  sessionF : HttpRequest → Cookie
  cgiF : Route → HttpRequest → String → SocketStatus → Bool × SocketStatus
  dirListF : String → String → String → Cookie → List Nat
  extract_boundary : String → Option String
  extract_multipart_files : List Nat → String → List (String × List Nat)
  uuid : String

/-- `handle_read_state` from src/read.rs lines 165-274.  Returns the Rust
`Option<bool>` together with the connection state and the filesystem after
any handler side effects. -/
def handle_read_state (ext : Externals) (fsT : FsTree) (fs : Fs) (events : List ReadEvent)
    (sd : SocketData) (li : Option ListenerInfo) : Option Bool × SocketData × Fs :=
  let rr := read_request events sd.status li
  let s := rr.2
  if rr.1 ≠ some true then (rr.1, { sd with status := s }, fs)
  else
    match s.request.get with
    | none => (none, { sd with status := s }, fs)
    | some request =>
      let cookie := ext.sessionF request
      let hostname := extract_hostname request.headers
      match li with
      | none => (none, { sd with status := s }, fs)
      | some info =>
        match select_server info hostname with
        | none => (none, { sd with status := s }, fs)
        | some selected_server =>
          if s.body_too_large then
            let response :=
              ((HttpResponseBuilder.new 413 "Payload Too Large").withBody
                (strBytes "Request body too large")).build
            (some true,
              { sd with status :=
                  { s with response := some (.simple (SimpleResponse.new response)),
                           status := .Write } }, fs)
          else
            match find_matching_route selected_server request.path with
            | some route =>
              match route.redirect with
              | some redirect =>
                let response_bytes := ((HttpResponseBuilder.redirect redirect).cookie cookie).build
                (some true,
                  { sd with status :=
                      { s with response := some (.simple (SimpleResponse.new response_bytes)),
                               status := .Write } }, fs)
              | none =>
                let method_allowed :=
                  route.methods.any (fun m => HttpMethod.from_str m == request.method)
                if method_allowed = false then
                  let response_bytes :=
                    handle_method_not_allowed fs route.methods selected_server cookie
                  (some true,
                    { sd with status :=
                        { s with response := some (.simple (SimpleResponse.new response_bytes)),
                                 status := .Write } }, fs)
                else
                  let file_path :=
                    ((resolve_file_path fsT selected_server route request.path).map
                      renderPath).getD ""
                  let cgiHit :=
                    match route.cgi with
                    | some cgi_ext => sEndsWith cgi_ext request.path
                    | none => false
                  if cgiHit then
                    let r := ext.cgiF route request file_path s
                    ((if r.1 then some true else none), { sd with status := r.2 }, fs)
                  else
                    let respFs : EngineResponse × Fs :=
                      match request.method with
                      | .GET =>
                        (handle_get ext.dirListF fs file_path selected_server request cookie, fs)
                      | .POST =>
                        let r := handle_post ext.extract_boundary ext.extract_multipart_files
                          fs ext.uuid file_path request cookie
                        (.simple (SimpleResponse.new r.1), r.2)
                      | .DELETE =>
                        let error_path := get_error_page_path selected_server 404
                        let r := handle_delete fs file_path error_path cookie
                        (.simple (SimpleResponse.new r.1), r.2)
                      | .Other _ =>
                        (.simple (SimpleResponse.new
                          (handle_method_not_allowed fs route.methods selected_server cookie)), fs)
                    (some true,
                      { sd with status :=
                          { s with response := some respFs.1, status := .Write } }, respFs.2)
            | none =>
              let error_path := get_error_page_path selected_server 404
              let response_bytes := serve_error_page_c fs error_path 404 "Not Found" cookie
              (some true,
                { sd with status :=
                    { s with response := some (.simple (SimpleResponse.new response_bytes)),
                             status := .Write } }, fs)

/-- `should_keep_alive` from src/write.rs lines 5-11. -/
def should_keep_alive (request : HttpRequest) : Bool :=
  ((request.headers.get "connection").map (fun v => sToLower v == "keep-alive")).getD false

/-- One result of `stream.write` in the write loop. -/
inductive WriteEvent
  | wrote (n : Nat)
  | wouldBlock
  | ioErr

/-- `write_response` from src/write.rs lines 13-38.  The in-memory file
model makes `fill_if_needed` infallible; the activity timestamp update is
not modelled. -/
def write_response (sd : SocketData) (ev : WriteEvent) : Option Bool × SocketData :=
  match sd.status.response with
  | none => (none, sd)
  | some response =>
    let r1 := response.fill_if_needed
    let data := r1.peek
    if data = [] then (some true, { sd with status := { sd.status with response := some r1 } })
    else
      match ev with
      | .wrote n =>
        let r2 := r1.next n
        ((if r2.is_finished then some false else some true),
          { sd with status := { sd.status with response := some r2 } })
      | .wouldBlock => (some false, { sd with status := { sd.status with response := some r1 } })
      | .ioErr => (none, { sd with status := { sd.status with response := some r1 } })

/-- `handle_write_state` from src/write.rs lines 40-70: after the response
finishes, a keep-alive request resets the builder and response and returns
the connection to Read; otherwise the socket is shut down and the `None`
return makes the connection eligible for removal by the loop. -/
def handle_write_state (sd : SocketData) (ev : WriteEvent) : Option Bool × SocketData :=
  let wr := write_response sd ev
  if wr.1 = some true then
    let sd1 := wr.2
    match sd1.status.response with
    | none => (none, sd1)
    | some response =>
      if response.is_finished = false then (some true, sd1)
      else
        match sd1.status.request.get with
        | none => (none, sd1)
        | some request =>
          if should_keep_alive request then
            (some true,
              { sd1 with status :=
                  { sd1.status with status := .Read, request := RequestBuilder.new,
                                    response := none } })
          else (none, { sd1 with shutdown := true })
  else (wr.1, wr.2)

end Engine

/-! ### src/config.rs : parsing

Loops (`while i < lines.len()`) are embedded with an explicit fuel
parameter instantiated with `lines.length`, which bounds the iteration
count since every iteration advances the line index.  The single quotes
inside some Rust error-message literals are elided; the message of claim
C10, `ports must contain at least one value`, contains none and is kept
verbatim. -/

namespace ConfigParse

/-- `indent_level` from src/config.rs lines 38-40. -/
def indent_level (line : String) : Nat :=
  (line.data.takeWhile (fun c => c == ' ')).length

/-- Line access `lines[i]`; the Rust callers only index in bounds. -/
def getLine (lines : List String) (i : Nat) : String := (lines[i]?).getD ""

/-- Embeds `str::trim_matches('"')`. -/
def trimQuotes (s : String) : String :=
  ⟨((s.data.dropWhile (fun c => c == '"')).reverse.dropWhile (fun c => c == '"')).reverse⟩

/-- The port-collecting loop of `parse_ports` (src/config.rs lines 51-61). -/
def portsLoop (lines : List String) : Nat → Nat → List Nat → Except String (List Nat × Nat)
  | 0, i, acc => .ok (acc, i)
  | fuel + 1, i, acc =>
    if i < lines.length then
      let lvl := indent_level (getLine lines i)
      let line := sTrim (getLine lines i)
      if lvl = 6 ∧ sStartsWith "-" line then
        match parseU16 (sTrim (sDrop line 1)) with
        | some port => portsLoop lines fuel (i + 1) (acc ++ [port])
        | none => .error "invalid digit found in string"
      else .ok (acc, i)
    else .ok (acc, i)

/-- `parse_ports` from src/config.rs lines 42-68. -/
def parse_ports (lines : List String) (start : Nat) : Except String (List Nat × Nat) :=
  if ¬(indent_level (getLine lines start) = 4 ∧ sTrim (getLine lines start) = "ports:") then
    .error "Expected ports:"
  else
    match portsLoop lines lines.length (start + 1) [] with
    | .error e => .error e
    | .ok (ports, i) =>
      if ports = [] then .error "ports must contain at least one value"
      else .ok (ports, i)

/-- The entry-collecting loop of `parse_error_pages` (src/config.rs lines
80-96). -/
def errorPagesLoop (lines : List String) :
    Nat → Nat → List ErrorPage → Except String (List ErrorPage × Nat)
  | 0, i, acc => .ok (acc, i)
  | fuel + 1, i, acc =>
    if i < lines.length then
      if indent_level (getLine lines i) ≠ 6 then .ok (acc, i)
      else
        let line := sTrim (getLine lines i)
        match splitOnceStr ':' line with
        | some kv =>
          match parseU16 (sTrim kv.1) with
          | some c =>
            errorPagesLoop lines fuel (i + 1) (acc ++ [⟨c, trimQuotes (sTrim kv.2)⟩])
          | none => .error "invalid digit found in string"
        | none => .ok (acc, i)
    else .ok (acc, i)

/-- `parse_error_pages` from src/config.rs lines 70-99. -/
def parse_error_pages (lines : List String) (start : Nat) :
    Except String (List ErrorPage × Nat) :=
  if ¬(indent_level (getLine lines start) = 4 ∧ sTrim (getLine lines start) = "error_pages:") then
    .error "Expected error_pages:"
  else errorPagesLoop lines lines.length (start + 1) []

/-- `parse_route_field` from src/config.rs lines 150-174. -/
def parse_route_field (route : Route) (key value : String) : Except String Route :=
  match sTrim key with
  | "path" => .ok { route with path := trimQuotes (sTrim value) }
  | "methods" =>
    let v := sTrim value
    let v2 := if sStartsWith "[" v ∧ sEndsWith "]" v then sDropRight (sDrop v 1) 1 else v
    .ok { route with methods :=
      ((sSplit ',' v2).map (fun s => sToUpper (trimQuotes (sTrim s)))).filter (fun s => s != "") }
  | "root" => .ok { route with root := trimQuotes (sTrim value) }
  | "default_file" => .ok { route with default_file := some (trimQuotes (sTrim value)) }
  | "redirect" => .ok { route with redirect := some (trimQuotes (sTrim value)) }
  | "cgi" => .ok { route with cgi := some (trimQuotes (sTrim value)) }
  | "list_directory" =>
    let val := sToLower (sTrim value)
    .ok { route with list_directory := some (decide (val = "true" ∨ val = "yes" ∨ val = "1")) }
  | k => .error ("Unknown route field: " ++ k)

/-- The indented-field loop of `parse_route` (src/config.rs lines 128-134). -/
def routeFieldsLoop (lines : List String) : Nat → Nat → Route → Except String (Route × Nat)
  | 0, i, route => .ok (route, i)
  | fuel + 1, i, route =>
    if i < lines.length ∧ indent_level (getLine lines i) = 8 then
      let line := sTrim (getLine lines i)
      match splitOnceStr ':' line with
      | some kv =>
        match parse_route_field route kv.1 kv.2 with
        | .ok r2 => routeFieldsLoop lines fuel (i + 1) r2
        | .error e => .error e
      | none => routeFieldsLoop lines fuel (i + 1) route
    else .ok (route, i)

/-- `parse_route` from src/config.rs lines 101-148. -/
def parse_route (lines : List String) (start : Nat) : Except String (Route × Nat) :=
  let route0 : Route := ⟨"", [], "", none, none, none, none⟩
  if ¬(indent_level (getLine lines start) = 6 ∧ sStartsWith "-" (sTrim (getLine lines start)) = true) then
    .error "Expected route entry"
  else
    let first_line := sTrim (sDrop (sTrim (getLine lines start)) 1)
    let step1 : Except String Route :=
      if first_line ≠ "" then
        match splitOnceStr ':' first_line with
        | some kv => parse_route_field route0 kv.1 kv.2
        | none => .ok route0
      else .ok route0
    match step1 with
    | .error e => .error e
    | .ok r1 =>
      match routeFieldsLoop lines lines.length (start + 1) r1 with
      | .error e => .error e
      | .ok (route, i) =>
        if route.path = "" then .error "Route missing path"
        else if route.methods = [] then .error "Route missing methods"
        else if route.root = "" then .error "Route missing root"
        else .ok (route, i)

/-- The route-list loop of the `routes:` arm of `parse_server`
(src/config.rs lines 242-249). -/
def routesLoop (lines : List String) : Nat → Nat → List Route → Except String (List Route × Nat)
  | 0, i, acc => .ok (acc, i)
  | fuel + 1, i, acc =>
    if i < lines.length ∧ indent_level (getLine lines i) = 6 ∧
        sStartsWith "-" (sTrim (getLine lines i)) = true then
      match parse_route lines i with
      | .error e => .error e
      | .ok (r, ni) => routesLoop lines fuel ni (acc ++ [r])
    else .ok (acc, i)

/-- The mutable accumulator of `parse_server` (src/config.rs lines 177-184). -/
structure ServerAcc where
  server_name : Option String
  host : Option String
  default_server : Bool
  client_max_body_size : Option Nat
  root : String
  ports : List Nat
  error_pages : List ErrorPage
  routes : List Route
deriving DecidableEq

/-- The field loop of `parse_server` (src/config.rs lines 206-258), arms in
source order. -/
def serverLoop (lines : List String) : Nat → Nat → ServerAcc → Except String (ServerAcc × Nat)
  | 0, i, acc => .ok (acc, i)
  | fuel + 1, i, acc =>
    if i < lines.length then
      let lvl := indent_level (getLine lines i)
      let line := sTrim (getLine lines i)
      if lvl = 4 ∧ sStartsWith "server_name:" line then
        serverLoop lines fuel (i + 1)
          { acc with server_name := some (trimQuotes (sTrim (sDrop line 12))) }
      else if lvl = 4 ∧ sStartsWith "host:" line then
        serverLoop lines fuel (i + 1) { acc with host := some (sTrim (sDrop line 5)) }
      else if lvl = 4 ∧ line = "ports:" then
        match parse_ports lines i with
        | .error e => .error e
        | .ok (p, ni) => serverLoop lines fuel ni { acc with ports := p }
      else if lvl = 4 ∧ sStartsWith "default_server:" line then
        let val := sToLower (sTrim (sDrop line 15))
        serverLoop lines fuel (i + 1)
          { acc with default_server := decide (val = "true" ∨ val = "yes" ∨ val = "1") }
      else if lvl = 4 ∧ line = "error_pages:" then
        match parse_error_pages lines i with
        | .error e => .error e
        | .ok (ep, ni) => serverLoop lines fuel ni { acc with error_pages := ep }
      else if lvl = 4 ∧ sStartsWith "client_max_body_size:" line then
        match parseUsize (sTrim (sDrop line 21)) with
        | some v => serverLoop lines fuel (i + 1) { acc with client_max_body_size := some v }
        | none => .error "invalid digit found in string"
      else if lvl = 4 ∧ sStartsWith "root:" line then
        serverLoop lines fuel (i + 1) { acc with root := trimQuotes (sTrim (sDrop line 5)) }
      else if lvl = 4 ∧ line = "routes:" then
        match routesLoop lines lines.length (i + 1) [] with
        | .error e => .error e
        | .ok (rs, ni) => serverLoop lines fuel ni { acc with routes := acc.routes ++ rs }
      else if lvl = 2 ∧ sStartsWith "-" line then .ok (acc, i)
      else if lvl < 4 then .ok (acc, i)
      else .error ("Unknown server field or invalid indentation: " ++ line)
    else .ok (acc, i)

/-- `parse_server` from src/config.rs lines 176-274, including the defaults
applied at the end: `ports=[80]` when no ports were collected,
`client_max_body_size=1_000_000`, `server_name=host`. -/
def parse_server (lines : List String) (start : Nat) : Except String (ServerConfig × Nat) :=
  let acc0 : ServerAcc := ⟨none, none, false, none, "", [], [], []⟩
  if indent_level (getLine lines start) = 2 ∧ sStartsWith "-" (sTrim (getLine lines start)) = true then
    match splitOnceStr ':' (sTrim (sDrop (sTrim (getLine lines start)) 1)) with
    | some kv =>
      let first : Except String ServerAcc :=
        match sTrim kv.1 with
        | "host" => .ok { acc0 with host := some (sTrim kv.2) }
        | "server_name" => .ok { acc0 with server_name := some (trimQuotes (sTrim kv.2)) }
        | k => .error ("Expected host or server_name after -, got " ++ k)
      match first with
      | .error e => .error e
      | .ok acc1 =>
        match serverLoop lines lines.length (start + 1) acc1 with
        | .error e => .error e
        | .ok (acc, i) =>
          match acc.host with
          | none => .error "Missing host"
          | some host =>
            .ok ({ server_name := (acc.server_name).getD host,
                   host := host,
                   ports := if acc.ports = [] then [80] else acc.ports,
                   default_server := acc.default_server,
                   error_pages := acc.error_pages,
                   client_max_body_size := (acc.client_max_body_size).getD 1000000,
                   root := acc.root,
                   routes := acc.routes }, i)
    | none => .error "Expected host: or server_name: after -"
  else .error "Expected - host: or - server_name: for server entry"

end ConfigParse

/-! ### Concrete fixtures used by witnesses and counterexamples -/

/-- A route at path `/a`. -/
def routeA : Route := ⟨"/a", ["GET"], "r", none, none, none, none⟩

/-- A server whose only route is `routeA`. -/
def srvA : ServerConfig :=
  { server_name := "s", host := "127.0.0.1", ports := [8080], default_server := true,
    error_pages := [], client_max_body_size := 1000000, root := "./www", routes := [routeA] }

/-- A route mounted at `/st` over the `static` directory. -/
def routeStatic : Route := ⟨"/st", ["GET"], "static", none, none, none, none⟩

/-- A server rooted at `./www` with the `/st` route. -/
def srvStatic : ServerConfig :=
  { server_name := "s", host := "127.0.0.1", ports := [8080], default_server := true,
    error_pages := [], client_max_body_size := 1000000, root := "./www",
    routes := [routeStatic] }

/-- A small filesystem: `www/static/index.html`. -/
def fsStatic : FsTree :=
  .dir [("www", .dir [("static", .dir [("index.html", .file [104, 105])])])]

/-- A one-file string-keyed filesystem. -/
def fsW : Fs := fun p => if p = "a.txt" then some [104, 105] else none

/-- A finished in-memory response. -/
def respDone : EngineResponse := .simple ⟨[72], 1⟩

/-- A connection that has just finished writing the response to a
keep-alive request. -/
def sdKeep : Engine.SocketData :=
  { status := {
      status := .Write,
      request := ⟨strBytes "GET / HTTP/1.1\r\nConnection: keep-alive\r\n\r\n", .Complete⟩,
      response := some respDone, server_selected := true, body_too_large := false,
      max_body_size := some 1000000 },
    shutdown := false }

/-- The parsed head of the request accumulated in `sdKeep`. -/
def reqKeep : HttpRequest :=
  { method := .GET, path := "/", version := "HTTP/1.1",
    headers := ⟨[("Connection", "keep-alive")]⟩, body := none }

/-- A direct-upload POST request. -/
def reqUpload : HttpRequest :=
  { method := .POST, path := "/up/file.txt", version := "HTTP/1.1",
    headers := ⟨[("Content-Type", "text/plain")]⟩, body := some [1, 2] }

/-- A listener whose only server is `srvA`. -/
def liA : ListenerInfo := ⟨[srvA], 0⟩

/-- Trivial external collaborators for exercising the read handler. -/
def ext413 : Engine.Externals :=
  { sessionF := fun _ => ⟨"sid"⟩, cgiF := fun _ _ _ s => (false, s),
    dirListF := fun _ _ _ _ => [], extract_boundary := fun _ => none,
    extract_multipart_files := fun _ _ => [], uuid := "u1" }

/-- A connection that has read a complete POST head and whose selected
server allows at most 3 body bytes. -/
def sd413 : Engine.SocketData :=
  { status := {
      status := .Read,
      request := ⟨strBytes "POST /a HTTP/1.1\r\nHost: h\r\n\r\n", .Headers⟩,
      response := none, server_selected := true, body_too_large := false,
      max_body_size := some 3 },
    shutdown := false }

/-- Read events delivering an oversized request body. -/
def evs413 : List Engine.ReadEvent := [.chunk (strBytes "12345")]

/-! ## Theorems -/

/-! ### Claim C9 : `SimpleResponse` cursor safety -/

theorem simpleRun_general (d : List Nat) :
    ∀ (trace : List Nat) (r : SimpleResponse), r.data = d → r.index ≤ d.length →
      r.validTrace trace →
      (r.run trace).1.data = d ∧ r.index ≤ (r.run trace).1.index ∧
      (r.run trace).1.index ≤ d.length ∧
      (r.run trace).2.flatten = (d.drop r.index).take ((r.run trace).1.index - r.index) := by
  intro trace
  induction trace with
  | nil =>
    intro r hd hle _
    exact ⟨hd, Nat.le_refl _, hle, by simp [SimpleResponse.run]⟩
  | cons n ns ih =>
    intro r hd hle hv
    obtain ⟨hn, hv2⟩ := hv
    have hpeek : (r.peek).length = d.length - r.index := by
      simp [SimpleResponse.peek, hd]
    rw [hpeek] at hn
    have hidx : r.index + n ≤ d.length := by omega
    have ihr := ih (r.next n) (by simp [SimpleResponse.next, hd])
      (by simpa [SimpleResponse.next] using hidx) hv2
    obtain ⟨h1, h2, h3, h4⟩ := ihr
    have h2' : r.index + n ≤ ((r.next n).run ns).1.index := h2
    have h4' : ((r.next n).run ns).2.flatten =
        (d.drop (r.index + n)).take (((r.next n).run ns).1.index - (r.index + n)) := h4
    refine ⟨h1, Nat.le_trans (Nat.le_add_right _ _) h2', h3, ?_⟩
    show ((r.peek).take n :: ((r.next n).run ns).2).flatten =
      (d.drop r.index).take (((r.next n).run ns).1.index - r.index)
    rw [List.flatten_cons]
    have hslice : (r.peek).take n = (d.drop r.index).take n := by
      simp [SimpleResponse.peek, hd]
    have hdrop : d.drop (r.index + n) = (d.drop r.index).drop n := by
      rw [List.drop_drop]
    have harith : (((r.next n).run ns).1.index - r.index) =
        n + (((r.next n).run ns).1.index - (r.index + n)) := by omega
    rw [hslice, h4', hdrop, harith, List.take_add]

/-- Claim C9: for every `SimpleResponse`, as long as each `next n` advances
by at most the length of the slice most recently returned by `peek`, the
index never exceeds the data length, `peek` stays in bounds, `is_finished`
holds exactly when the index reaches the data length, and the concatenation
of the consumed slices is the consumed prefix of the data (all of it once
finished); and a single overshooting `next` puts the following `peek` out of
bounds. -/
theorem simpleResponse_cursor_safety (d trace : List Nat)
    (hv : (SimpleResponse.new d).validTrace trace) :
    ((SimpleResponse.new d).run trace).1.index ≤ d.length ∧
    ((SimpleResponse.new d).run trace).1.peekInBounds = true ∧
    (((SimpleResponse.new d).run trace).1.is_finished = true ↔
      ((SimpleResponse.new d).run trace).1.index = d.length) ∧
    ((SimpleResponse.new d).run trace).2.flatten =
      d.take (((SimpleResponse.new d).run trace).1.index) ∧
    (((SimpleResponse.new d).run trace).1.is_finished = true →
      ((SimpleResponse.new d).run trace).2.flatten = d) ∧
    (∀ (r : SimpleResponse) (n : Nat), r.index ≤ r.data.length → (r.peek).length < n →
      (r.next n).peekInBounds = false) := by
  have h := simpleRun_general d trace (SimpleResponse.new d) rfl
    (by simp [SimpleResponse.new]) hv
  obtain ⟨h1, _, h3, h4⟩ := h
  have hidx0 : (SimpleResponse.new d).index = 0 := rfl
  have hflat : ((SimpleResponse.new d).run trace).2.flatten =
      d.take (((SimpleResponse.new d).run trace).1.index) := by
    rw [h4]; simp [hidx0]
  refine ⟨h3, ?_, ?_, hflat, ?_, ?_⟩
  · simp [SimpleResponse.peekInBounds, h1, h3]
  · simp only [SimpleResponse.is_finished, h1, decide_eq_true_eq]
    omega
  · intro hfin
    simp only [SimpleResponse.is_finished, h1, decide_eq_true_eq] at hfin
    have : ((SimpleResponse.new d).run trace).1.index = d.length := by omega
    rw [hflat, this, List.take_length]
  · intro r n hle hover
    have hpl : (r.peek).length = r.data.length - r.index := by
      simp [SimpleResponse.peek]
    simp only [SimpleResponse.peekInBounds, SimpleResponse.next, decide_eq_false_iff_not]
    omega

theorem simpleResponse_cursor_safety_witness :
    ((SimpleResponse.new [7, 8, 9]).run [3]).2.flatten = [7, 8, 9] :=
  (simpleResponse_cursor_safety [7, 8, 9] [3] ⟨by decide, trivial⟩).2.2.2.2.1 (by decide)

/-! ### Claim C3 : `HttpRequestBuilder::done` -/

theorem hasHeadTerminator_iff (l : List Nat) :
    Request.hasHeadTerminator l = true ↔ ∃ x y, l = x ++ [13, 10, 13, 10] ++ y := by
  induction l with
  | nil =>
    simp only [Request.hasHeadTerminator]
    constructor
    · intro h; exact absurd h (by simp)
    · rintro ⟨x, y, hxy⟩
      exact absurd hxy.symm (by simp)
  | cons c rest ih =>
    simp only [Request.hasHeadTerminator, Bool.or_eq_true, ih]
    constructor
    · rintro (hw | ⟨x, y, hxy⟩)
      · have hp : [13, 10, 13, 10] <+: c :: rest := by
          simpa [Request.windowIsCRLFCRLF] using hw
        obtain ⟨t, ht⟩ := hp
        exact ⟨[], t, by simpa using ht.symm⟩
      · exact ⟨c :: x, y, by simp [hxy]⟩
    · rintro ⟨x, y, hxy⟩
      cases x with
      | nil =>
        left
        simp only [List.nil_append] at hxy
        simp [Request.windowIsCRLFCRLF, hxy, List.isPrefixOf_iff_prefix]
      | cons a x2 =>
        right
        refine ⟨x2, y, ?_⟩
        have := hxy
        simp only [List.cons_append] at this
        exact (List.cons.injEq .. ▸ this).2

/-- Claim C3 counterexample: after appending the complete head of a POST
with `Content-Length: 5` and no body bytes, `done()` already returns true
although the declared body has not been received. -/
theorem done_true_before_declared_body :
    (Request.HttpRequestBuilder.new.append
        (strBytes "POST / HTTP/1.1\r\nContent-Length: 5\r\n\r\n")).done = true ∧
    specComplete (strBytes "POST / HTTP/1.1\r\nContent-Length: 5\r\n\r\n") = false := by
  constructor
  · decide
  · decide

/-- Claim C3 (amended): `done()` returns true iff the bytes appended so far
contain the head terminator `\r\n\r\n`; the body length declared by
Content-Length is not consulted. -/
theorem request_done_iff_head_terminator (b : Request.HttpRequestBuilder) :
    b.done = true ↔ ∃ x y, b.buffer = x ++ [13, 10, 13, 10] ++ y :=
  hasHeadTerminator_iff b.buffer

/-! ### Claim C2 : route selection -/

theorem maxRoute_go (l : List Route) :
    ∀ (b r : Route), l.foldl maxRouteStep (some b) = some r →
      (r = b ∨ r ∈ l) ∧ b.path.length ≤ r.path.length ∧
      ∀ x ∈ l, x.path.length ≤ r.path.length := by
  induction l with
  | nil =>
    intro b r h
    simp only [List.foldl_nil] at h
    cases h
    exact ⟨Or.inl rfl, Nat.le_refl _, by simp⟩
  | cons c t ih =>
    intro b r h
    simp only [List.foldl_cons] at h
    by_cases hbc : b.path.length ≤ c.path.length
    · rw [show maxRouteStep (some b) c = some c from by simp [maxRouteStep, hbc]] at h
      obtain ⟨hm, hle, hall⟩ := ih c r h
      refine ⟨?_, Nat.le_trans hbc hle, ?_⟩
      · rcases hm with h1 | h1
        · exact Or.inr (by simp [h1])
        · exact Or.inr (List.mem_cons_of_mem _ h1)
      · intro x hx
        rcases List.mem_cons.mp hx with h1 | h1
        · subst h1; exact hle
        · exact hall x h1
    · rw [show maxRouteStep (some b) c = some b from by simp [maxRouteStep, hbc]] at h
      obtain ⟨hm, hle, hall⟩ := ih b r h
      refine ⟨?_, hle, ?_⟩
      · rcases hm with h1 | h1
        · exact Or.inl h1
        · exact Or.inr (List.mem_cons_of_mem _ h1)
      · intro x hx
        rcases List.mem_cons.mp hx with h1 | h1
        · subst h1; omega
        · exact hall x h1

theorem maxByPathLen_spec (l : List Route) (r : Route) (h : maxByPathLen l = some r) :
    r ∈ l ∧ ∀ x ∈ l, x.path.length ≤ r.path.length := by
  cases l with
  | nil => simp [maxByPathLen] at h
  | cons c t =>
    have h2 : t.foldl maxRouteStep (some c) = some r := by
      simpa [maxByPathLen, maxRouteStep] using h
    obtain ⟨hm, hle, hall⟩ := maxRoute_go t c r h2
    refine ⟨?_, ?_⟩
    · rcases hm with h1 | h1
      · simp [h1]
      · exact List.mem_cons_of_mem _ h1
    · intro x hx
      rcases List.mem_cons.mp hx with h1 | h1
      · subst h1; exact hle
      · exact hall x h1

theorem maxRoute_go_isSome (l : List Route) :
    ∀ b, (l.foldl maxRouteStep (some b)).isSome = true := by
  induction l with
  | nil => intro b; rfl
  | cons c t ih =>
    intro b
    simp only [List.foldl_cons]
    by_cases hbc : b.path.length ≤ c.path.length
    · rw [show maxRouteStep (some b) c = some c from by simp [maxRouteStep, hbc]]; exact ih c
    · rw [show maxRouteStep (some b) c = some b from by simp [maxRouteStep, hbc]]; exact ih b

theorem maxByPathLen_none (l : List Route) (h : maxByPathLen l = none) : l = [] := by
  cases l with
  | nil => rfl
  | cons c t =>
    exfalso
    have hs := maxRoute_go_isSome t c
    have h2 : t.foldl maxRouteStep (some c) = none := by
      simpa [maxByPathLen, maxRouteStep] using h
    rw [h2] at hs
    simp at hs

/-- Claim C2 counterexample: `Router::find_route` (src/router.rs lines
33-39), one of the two cited route-selection functions, matches by plain
string prefix, so the request path `/ab` does match route `/a` there. -/
theorem router_find_route_matches_inside_segment :
    Router.find_route [routeA] "/ab" = some routeA := by decide

/-- Claim C2 (amended, for `find_matching_route` of src/read.rs): the
selection returns a matching route of maximal path length (no route matches
when it returns none); a route matches exactly when its path is `/`, equals
the request path, or is followed by `/` in the request path — so `/ab`
never matches route `/a` here.  `Router::find_route` of src/router.rs,
also cited by the claim, violates the boundary condition (see the
counterexample). -/
theorem find_matching_route_selects_longest_boundary_match (server : ServerConfig)
    (request_path : String) :
    (∀ r, find_matching_route server request_path = some r →
        r ∈ server.routes ∧ routeMatches r request_path = true ∧
        ∀ x ∈ server.routes, routeMatches x request_path = true →
          x.path.length ≤ r.path.length) ∧
    (find_matching_route server request_path = none →
        ∀ x ∈ server.routes, routeMatches x request_path = false) ∧
    (∀ r : Route, routeMatches r request_path = true ↔
        (r.path = "/" ∨ request_path = r.path ∨
          sIsPrefixOf (r.path ++ "/") request_path = true)) ∧
    routeMatches routeA "/ab" = false := by
  refine ⟨?_, ?_, ?_, by decide⟩
  · intro r h
    obtain ⟨hmem, hmax⟩ := maxByPathLen_spec _ r h
    rw [List.mem_filter] at hmem
    refine ⟨hmem.1, hmem.2, ?_⟩
    intro x hx hmx
    exact hmax x (List.mem_filter.mpr ⟨hx, hmx⟩)
  · intro h x hx
    have hnil := maxByPathLen_none _ h
    by_contra hne
    have hmx : routeMatches x request_path = true := by
      cases hx2 : routeMatches x request_path
      · exact absurd hx2 hne
      · rfl
    have : x ∈ server.routes.filter (fun r => routeMatches r request_path) :=
      List.mem_filter.mpr ⟨hx, hmx⟩
    rw [hnil] at this
    simp at this
  · intro r
    by_cases hroot : r.path = "/"
    · simp [routeMatches, hroot]
    · simp only [routeMatches, if_neg hroot, Bool.or_eq_true, beq_iff_eq]
      constructor
      · rintro (h | h)
        · exact Or.inr (Or.inl h)
        · exact Or.inr (Or.inr h)
      · rintro (h | h | h)
        · exact absurd h hroot
        · exact Or.inl h
        · exact Or.inr h

theorem find_matching_route_selects_longest_boundary_match_witness :
    routeA ∈ srvA.routes ∧ routeMatches routeA "/a/x" = true ∧
    ∀ x ∈ srvA.routes, routeMatches x "/a/x" = true → x.path.length ≤ routeA.path.length :=
  (find_matching_route_selects_longest_boundary_match srvA "/a/x").1 routeA (by decide)

/-! ### Claim C8 : `serve_error_page` -/

theorem build_shape (b : HttpResponseBuilder) :
    ∃ hdr, b.build =
      strBytes ("HTTP/1.1 " ++ toString b.status_code ++ " " ++ b.status_text ++ "\r\n") ++
        hdr ++ strBytes "\r\n" ++ b.body :=
  ⟨((b.headers.insert "Content-Length" (toString b.body.length)).entries.map headerLineBytes).flatten,
    rfl⟩

/-- Claim C8: for every status code and error-page path, `serve_error_page`
answers with a status line carrying exactly that code and text; when the
configured file reads successfully its contents are the response body, and
when the read fails the fallback is the minimal in-memory response with the
same status line. -/
theorem serve_error_page_status_and_body (fs : Fs) (path : String) (code : Nat)
    (text : String) :
    (∀ content, fs path = some content →
      ∃ hdr, HttpResponseBuilder.serve_error_page fs path code text =
        strBytes ("HTTP/1.1 " ++ toString code ++ " " ++ text ++ "\r\n") ++ hdr ++
          strBytes "\r\n" ++ content) ∧
    (fs path = none →
      ∃ hdr, HttpResponseBuilder.serve_error_page fs path code text =
        strBytes ("HTTP/1.1 " ++ toString code ++ " " ++ text ++ "\r\n") ++ hdr ++
          strBytes "\r\n") := by
  constructor
  · intro content hc
    obtain ⟨hdr, hh⟩ := build_shape
      (((HttpResponseBuilder.new code text).header "Content-Type" "text/html").withBody content)
    refine ⟨hdr, ?_⟩
    rw [HttpResponseBuilder.serve_error_page, hc]
    exact hh
  · intro hn
    obtain ⟨hdr, hh⟩ := build_shape (HttpResponseBuilder.new code text)
    refine ⟨hdr, ?_⟩
    rw [HttpResponseBuilder.serve_error_page, hn]
    simpa [HttpResponseBuilder.new] using hh

theorem serve_error_page_status_and_body_witness :
    ∃ hdr, HttpResponseBuilder.serve_error_page
        (fun p => if p = "./errors/500.html" then some [104, 105] else none)
        "./errors/500.html" 500 "Internal Server Error" =
      strBytes ("HTTP/1.1 " ++ toString 500 ++ " " ++ "Internal Server Error" ++ "\r\n") ++ hdr ++
        strBytes "\r\n" ++ [104, 105] :=
  (serve_error_page_status_and_body
      (fun p => if p = "./errors/500.html" then some [104, 105] else none)
      "./errors/500.html" 500 "Internal Server Error").1 [104, 105] (by simp)

/-! ### Claim C10 : empty `ports:` list versus absent key -/

/-- Claim C10: a `ports:` key followed by no port entry is rejected with
exactly the error `ports must contain at least one value` (first conjunct,
and propagated through `parse_server` in the second); a server block with no
`ports:` key at all parses successfully with the default ports `[80]`
(third conjunct). -/
theorem ports_key_requires_entries :
    (∀ (lines : List String) (i : Nat),
      ConfigParse.indent_level (ConfigParse.getLine lines i) = 4 →
      sTrim (ConfigParse.getLine lines i) = "ports:" →
      ¬(ConfigParse.indent_level (ConfigParse.getLine lines (i + 1)) = 6 ∧
        sStartsWith "-" (sTrim (ConfigParse.getLine lines (i + 1))) = true) →
      ConfigParse.parse_ports lines i = .error "ports must contain at least one value") ∧
    ConfigParse.parse_server ["  - host: 1.2.3.4", "    ports:", "    root: x"] 0 =
      .error "ports must contain at least one value" ∧
    ConfigParse.parse_server ["  - host: 1.2.3.4", "    root: x"] 0 =
      .ok ({ server_name := "1.2.3.4", host := "1.2.3.4", ports := [80],
             default_server := false, error_pages := [],
             client_max_body_size := 1000000, root := "x", routes := [] }, 2) := by
  refine ⟨?_, by rfl, by rfl⟩
  intro lines i h4 hp hnot
  have hlen : lines.length ≠ 0 := by
    intro h0
    have : lines = [] := List.length_eq_zero.mp h0
    rw [this] at hp
    simp [ConfigParse.getLine, sTrim] at hp
  obtain ⟨k, hk⟩ : ∃ k, lines.length = k + 1 := by
    cases hL : lines.length with
    | zero => exact absurd hL hlen
    | succ k => exact ⟨k, rfl⟩
  have hloop : ConfigParse.portsLoop lines lines.length (i + 1) [] = .ok ([], i + 1) := by
    rw [hk]
    unfold ConfigParse.portsLoop
    by_cases hlt : i + 1 < lines.length
    · rw [if_pos hlt, if_neg hnot]
    · rw [if_neg hlt]
  unfold ConfigParse.parse_ports
  rw [if_neg (not_not_intro ⟨h4, hp⟩), hloop]
  rfl

theorem ports_key_requires_entries_witness :
    ConfigParse.parse_ports ["    ports:"] 0 = .error "ports must contain at least one value" :=
  ports_key_requires_entries.1 ["    ports:"] 0 (by decide) (by decide) (by decide)

/-! ### Claim C1 : `resolve_file_path` stays under the base directory -/

theorem normalize_go_no_dotdot (xs : List String) :
    ∀ acc, ".." ∉ acc → ".." ∉ xs.foldl normStep acc := by
  induction xs with
  | nil => intro acc h; exact h
  | cons c t ih =>
    intro acc h
    simp only [List.foldl_cons]
    apply ih
    unfold normStep
    by_cases hc : c = ".."
    · rw [if_pos hc]
      intro hmem
      exact h (List.dropLast_subset _ hmem)
    · rw [if_neg hc]
      intro hmem
      rcases List.mem_append.mp hmem with h1 | h1
      · exact h h1
      · simp only [List.mem_singleton] at h1
        exact hc h1.symm

theorem normalize_no_dotdot (xs : List String) : ".." ∉ normalize xs :=
  normalize_go_no_dotdot xs [] (by simp)

theorem foldl_normStep_no_dotdot (xs : List String) (h : ∀ c ∈ xs, c ≠ "..") :
    ∀ acc, xs.foldl normStep acc = acc ++ xs := by
  induction xs with
  | nil => intro acc; simp
  | cons c t ih =>
    intro acc
    simp only [List.foldl_cons]
    have hc : c ≠ ".." := h c (by simp)
    rw [show normStep acc c = acc ++ [c] from by simp [normStep, hc]]
    rw [ih (fun x hx => h x (by simp [hx]))]
    simp

theorem normalize_idem (xs : List String) : normalize (normalize xs) = normalize xs := by
  have h := normalize_no_dotdot xs
  have h2 := foldl_normStep_no_dotdot (normalize xs) (fun c hc heq => h (heq ▸ hc)) []
  simpa [normalize] using h2

theorem normalize_concat (xs : List String) (c : String) :
    normalize (xs ++ [c]) = normStep (normalize xs) c := by
  simp [normalize, List.foldl_append]

theorem FsTree.lookup_append (xs : List String) :
    ∀ (t : FsTree) (ys : List String),
      t.lookup (xs ++ ys) = (t.lookup xs).bind (fun t2 => t2.lookup ys) := by
  induction xs with
  | nil => intro t ys; simp [FsTree.lookup]
  | cons c rest ih =>
    intro t ys
    cases t with
    | file content => simp [FsTree.lookup]
    | dir cs =>
      simp only [List.cons_append, FsTree.lookup]
      cases cs.find? (fun e => e.1 == c) with
      | none => simp
      | some e => simpa using ih e.2 ys

theorem existsPath_dropLast (fs : FsTree) (p : List String)
    (h : existsPath fs p = true) : existsPath fs p.dropLast = true := by
  rcases List.eq_nil_or_concat p with rfl | ⟨ys, c, rfl⟩
  · simpa using h
  · simp only [List.concat_eq_append] at h ⊢
    rw [List.dropLast_concat]
    unfold existsPath at h ⊢
    rw [FsTree.lookup_append] at h
    cases hy : fs.lookup ys with
    | none => rw [hy] at h; simp at h
    | some t2 => simp

theorem canonicalize_eq_some (fs : FsTree) (p q : List String)
    (h : canonicalize fs p = some q) :
    q = normalize p ∧ existsPath fs (normalize p) = true := by
  unfold canonicalize at h
  by_cases he : existsPath fs (normalize p) = true
  · rw [if_pos he] at h
    cases h
    exact ⟨rfl, he⟩
  · rw [if_neg he] at h
    cases h

/-- Claim C1: whenever `resolve_file_path` returns a path, that path -
after resolving any remaining `..` components - lies under the
canonicalized base directory `server.root ++ "/" ++ route.root`; request
paths whose `..` segments would escape the base produce `None` instead, so
no file outside the base is ever opened, written, or deleted. -/
theorem resolve_file_path_stays_under_base (fsT : FsTree) (server : ServerConfig)
    (route : Route) (request_path : String) (q : List String)
    (h : resolve_file_path fsT server route request_path = some q) :
    ∃ base_path,
      canonicalize fsT (pathComponents (server.root ++ "/" ++ route.root)) = some base_path ∧
      base_path <+: normalize q := by
  rcases hbase : canonicalize fsT (pathComponents (server.root ++ "/" ++ route.root)) with
    _ | base_path
  · rw [resolve_file_path, hbase] at h
    exact absurd h (by simp)
  · refine ⟨base_path, rfl, ?_⟩
    simp only [resolve_file_path, hbase] at h
    obtain ⟨hbn, hbe⟩ := canonicalize_eq_some _ _ _ hbase
    have hb_nodot : ∀ c ∈ base_path, c ≠ ".." := by
      intro c hc heq
      exact normalize_no_dotdot _ (heq ▸ hbn ▸ hc)
    have hb_norm : normalize base_path = base_path := by
      have := foldl_normStep_no_dotdot base_path hb_nodot []
      simpa [normalize] using this
    set rel := pathComponents (trimLeadingSlashes (stripRoutePrefix request_path route.path))
      with hreldef
    rcases hful : canonicalize fsT (base_path ++ rel) with _ | p
    · -- fallback branch: the target itself does not canonicalize
      simp only [hful] at h
      rcases hpar : parentPath (base_path ++ rel) with _ | par
      · simp only [hpar] at h
        exact Option.noConfusion h
      · simp only [hpar] at h
        rcases hcp : canonicalize fsT par with _ | cp
        · simp only [hcp] at h
          exact Option.noConfusion h
        · simp only [hcp] at h
          rcases List.eq_nil_or_concat rel with hrel | ⟨ys, c, hrel⟩
          · -- rel = [] is impossible here: the target is the base itself, which exists
            exfalso
            rw [hrel, List.append_nil] at hful
            have hbe2 : existsPath fsT base_path = true := by rw [hbn]; exact hbe
            rw [show canonicalize fsT base_path = some base_path from by
              unfold canonicalize; simp only [hb_norm]; rw [if_pos hbe2]] at hful
            exact Option.noConfusion hful
          · rw [List.concat_eq_append] at hrel
            obtain ⟨hcpn, hcpe⟩ := canonicalize_eq_some _ _ _ hcp
            have hparval : par = base_path ++ ys := by
              have hpv : parentPath (base_path ++ (ys ++ [c])) = some (base_path ++ ys) := by
                unfold parentPath
                rw [if_neg (by simp)]
                rw [show base_path ++ (ys ++ [c]) = (base_path ++ ys) ++ [c] from by simp]
                rw [List.dropLast_concat]
              rw [hrel, hpv] at hpar
              exact (Option.some.injEq .. ▸ hpar).symm
            have hcp2 : normalize (base_path ++ ys) = cp := by rw [hcpn, hparval]
            by_cases hc : c = ".."
            · -- a trailing `..` cannot reach this branch: the parent canonicalizes,
              -- hence so does the full path
              exfalso
              have hnorm : normalize (base_path ++ rel) = cp.dropLast := by
                rw [hrel, show base_path ++ (ys ++ [c]) = (base_path ++ ys) ++ [c] from by simp,
                  normalize_concat, hc]
                rw [show normStep (normalize (base_path ++ ys)) ".." =
                  (normalize (base_path ++ ys)).dropLast from by simp [normStep]]
                rw [hcp2]
              have hdropex : existsPath fsT cp.dropLast = true := by
                apply existsPath_dropLast
                rw [← hcp2, ← hparval]
                exact hcpe
              have : canonicalize fsT (base_path ++ rel) ≠ none := by
                unfold canonicalize
                simp only [hnorm]
                rw [if_pos hdropex]
                simp
              exact this hful
            · -- ordinary trailing component: the result is the literal join
              by_cases hguard : base_path.isPrefixOf cp = true
              · simp only [if_pos hguard] at h
                rw [if_pos (List.isPrefixOf_iff_prefix.mpr ⟨rel, rfl⟩)] at h
                have hq : q = base_path ++ rel := (Option.some.injEq .. ▸ h).symm
                rw [hq, hrel, show base_path ++ (ys ++ [c]) = (base_path ++ ys) ++ [c] from by simp,
                  normalize_concat]
                rw [show normStep (normalize (base_path ++ ys)) c =
                  normalize (base_path ++ ys) ++ [c] from by simp [normStep, hc]]
                rw [hcp2]
                exact (List.isPrefixOf_iff_prefix.mp hguard).trans ⟨[c], rfl⟩
              · simp only [if_neg hguard] at h
                exact Option.noConfusion h
    · -- direct branch: the target canonicalizes
      simp only [hful] at h
      obtain ⟨hpn, hpe⟩ := canonicalize_eq_some _ _ _ hful
      by_cases hguard : base_path.isPrefixOf p = true
      · rw [if_pos hguard] at h
        have hq : q = p := (Option.some.injEq .. ▸ h).symm
        rw [hq, hpn, normalize_idem, ← hpn]
        exact List.isPrefixOf_iff_prefix.mp hguard
      · rw [if_neg hguard] at h
        exact absurd h (by simp)

theorem drain_body (fuel : Nat) :
    ∀ fr : FileResponse, fr.headers_sent = true →
      (fr.finished = true → fr.reader = []) →
      fr.buffer.length ≤ 8192 →
      fr.drainFuel ≤ fuel →
      (FileResponse.drain fuel fr).2.is_finished = true ∧
      (FileResponse.drain fuel fr).1.flatten = fr.buffer.drop fr.buf_index ++ fr.reader ∧
      ∀ s ∈ (FileResponse.drain fuel fr).1, s.length ≤ 8192 := by
  induction fuel with
  | zero =>
    intro fr hhs hfin hbuf hfuel
    by_cases hf : fr.is_finished = true
    · have hdecomp : fr.finished = true ∧ fr.buffer.length ≤ fr.buf_index := by
        have h2 := hf
        unfold FileResponse.is_finished at h2
        rw [hhs] at h2
        simpa using h2
      refine ⟨hf, ?_, by simp [FileResponse.drain]⟩
      show ([] : List (List Nat)).flatten = fr.buffer.drop fr.buf_index ++ fr.reader
      rw [List.drop_eq_nil_of_le hdecomp.2, hfin hdecomp.1]
      simp
    · exfalso
      unfold FileResponse.drainFuel at hfuel
      rw [if_neg hf] at hfuel
      omega
  | succ n ih =>
    intro fr hhs hfin hbuf hfuel
    by_cases hf : fr.is_finished = true
    · have hdecomp : fr.finished = true ∧ fr.buffer.length ≤ fr.buf_index := by
        have h2 := hf
        unfold FileResponse.is_finished at h2
        rw [hhs] at h2
        simpa using h2
      have hstep : FileResponse.drain (n + 1) fr = ([], fr) := by
        unfold FileResponse.drain; rw [if_pos hf]
      rw [hstep]
      refine ⟨hf, ?_, by simp⟩
      show ([] : List (List Nat)).flatten = fr.buffer.drop fr.buf_index ++ fr.reader
      rw [List.drop_eq_nil_of_le hdecomp.2, hfin hdecomp.1]
      simp
    · have hfuel2 : fr.reader.length + 2 +
          (if fr.buf_index < fr.buffer.length then 1 else 0) ≤ n + 1 := by
        unfold FileResponse.drainFuel at hfuel
        rw [if_neg hf] at hfuel
        exact hfuel
      have hstep : FileResponse.drain (n + 1) fr =
          (fr.fill_if_needed.peek ::
            (FileResponse.drain n (fr.fill_if_needed.next fr.fill_if_needed.peek.length)).1,
           (FileResponse.drain n (fr.fill_if_needed.next fr.fill_if_needed.peek.length)).2) := by
        conv_lhs => rw [FileResponse.drain]
        rw [if_neg hf]
      rw [hstep]
      by_cases hlt : fr.buf_index < fr.buffer.length
      · -- leftover bytes in the buffer: no fill, flush the remaining slice
        rw [if_pos hlt] at hfuel2
        have hnofill : fr.fill_if_needed = fr := by
          unfold FileResponse.fill_if_needed
          rw [if_neg]
          rintro ⟨_, h2, _⟩
          omega
        have hpeek : fr.peek = fr.buffer.drop fr.buf_index := by
          unfold FileResponse.peek
          rw [hhs]
          simp
        have hnext : fr.next fr.peek.length =
            { fr with buf_index := fr.buf_index + fr.peek.length } := by
          unfold FileResponse.next
          rw [hhs]
          simp
        rw [hnofill, hnext]
        have hplen : fr.peek.length = fr.buffer.length - fr.buf_index := by
          rw [hpeek]; simp
        have hih := ih { fr with buf_index := fr.buf_index + fr.peek.length } hhs hfin hbuf
          (by
            unfold FileResponse.drainFuel
            by_cases h2 : ({ fr with buf_index := fr.buf_index + fr.peek.length} :
                FileResponse).is_finished = true
            · rw [if_pos h2]; omega
            · rw [if_neg h2]
              have hc2 : ¬ ({ fr with buf_index := fr.buf_index + fr.peek.length} :
                  FileResponse).buf_index <
                  ({ fr with buf_index := fr.buf_index + fr.peek.length} :
                  FileResponse).buffer.length := by
                show ¬ fr.buf_index + fr.peek.length < fr.buffer.length
                omega
              rw [if_neg hc2]
              show fr.reader.length + 2 + 0 ≤ n
              omega)
        obtain ⟨hi1, hi2, hi3⟩ := hih
        refine ⟨hi1, ?_, ?_⟩
        · rw [List.flatten_cons, hi2]
          simp only []
          rw [show fr.buffer.drop (fr.buf_index + fr.peek.length) = [] from
            List.drop_eq_nil_of_le (by omega)]
          rw [hpeek]
          simp
        · intro s hs
          rcases List.mem_cons.mp hs with h1 | h1
          · subst h1; omega
          · exact hi3 s h1
      · -- buffer drained
        have hle : fr.buffer.length ≤ fr.buf_index := by omega
        by_cases hfin0 : fr.finished = true
        · exfalso
          apply hf
          unfold FileResponse.is_finished
          rw [hhs, hfin0]
          simpa using hle
        · have hfin0' : fr.finished = false := by
            cases hx : fr.finished
            · rfl
            · exact absurd hx hfin0
          have hfill : fr.fill_if_needed = fr.fill_buffer := by
            unfold FileResponse.fill_if_needed
            rw [if_pos ⟨hhs, hle, hfin0'⟩]
          have hfb : fr.fill_buffer = { fr with
              buffer := fr.reader.take 8192,
              reader := fr.reader.drop 8192, buf_index := 0,
              finished := decide (min 8192 fr.reader.length = 0) } := by
            unfold FileResponse.fill_buffer
            rw [if_pos ⟨hle, hfin0'⟩]
          rw [hfill, hfb]
          by_cases hrd : fr.reader = []
          · -- zero-length read: the response becomes finished; one empty slice
            simp only [hrd, List.take_nil, List.drop_nil, List.length_nil]
            have hpeek2 : ({ fr with
                buffer := ([] : List Nat), reader := ([] : List Nat),
                buf_index := 0, finished := decide (min 8192 0 = 0) } : FileResponse).peek = [] := by
              unfold FileResponse.peek
              rw [hhs]
              simp
            simp only [hpeek2]
            have hnext2 : ({ fr with
                buffer := ([] : List Nat), reader := ([] : List Nat),
                buf_index := 0, finished := decide (min 8192 0 = 0) } : FileResponse).next 0 =
                { fr with
                  buffer := ([] : List Nat), reader := ([] : List Nat),
                  buf_index := 0 + 0, finished := decide (min 8192 0 = 0) } := by
              unfold FileResponse.next
              rw [hhs]
              simp
            simp only [List.length_nil, hnext2]
            have hfinal : ({ fr with
                buffer := ([] : List Nat), reader := ([] : List Nat),
                buf_index := 0 + 0, finished := decide (min 8192 0 = 0) } :
                FileResponse).is_finished = true := by
              unfold FileResponse.is_finished
              rw [hhs]
              simp
            have hih := ih { fr with
                buffer := ([] : List Nat), reader := ([] : List Nat),
                buf_index := 0 + 0, finished := decide (min 8192 0 = 0) }
              hhs (by intro _; rfl) (by simp)
              (by unfold FileResponse.drainFuel; rw [if_pos hfinal]; omega)
            obtain ⟨hi1, hi2, hi3⟩ := hih
            refine ⟨hi1, ?_, ?_⟩
            · rw [List.flatten_cons, hi2, List.drop_eq_nil_of_le hle]
              simp
            · intro s hs
              rcases List.mem_cons.mp hs with h1 | h1
              · subst h1; simp
              · exact hi3 s h1
          · -- an at-least-one-byte fill
            have hr1 : 1 ≤ fr.reader.length := by
              cases hx : fr.reader
              · exact absurd hx hrd
              · simp [hx]
            have hm : min 8192 fr.reader.length ≠ 0 := by omega
            have hfin2 : decide (min 8192 fr.reader.length = 0) = false := by
              simpa using hm
            have hpeek2 : ({ fr with
                buffer := fr.reader.take 8192,
                reader := fr.reader.drop 8192, buf_index := 0,
                finished := decide (min 8192 fr.reader.length = 0) } : FileResponse).peek =
                fr.reader.take 8192 := by
              unfold FileResponse.peek
              rw [hhs]
              simp
            have hnext2 : ({ fr with
                buffer := fr.reader.take 8192,
                reader := fr.reader.drop 8192, buf_index := 0,
                finished := decide (min 8192 fr.reader.length = 0) } : FileResponse).next
                  (fr.reader.take 8192).length =
                { fr with
                  buffer := fr.reader.take 8192, reader := fr.reader.drop 8192,
                  buf_index := 0 + (fr.reader.take 8192).length,
                  finished := decide (min 8192 fr.reader.length = 0) } := by
              unfold FileResponse.next
              rw [hhs]
              simp
            simp only [hpeek2, hnext2]
            have hnotfin : ({ fr with
                buffer := fr.reader.take 8192,
                reader := fr.reader.drop 8192, buf_index := 0 + (fr.reader.take 8192).length,
                finished := decide (min 8192 fr.reader.length = 0) } :
                FileResponse).is_finished = false := by
              unfold FileResponse.is_finished
              rw [hhs, hfin2]
              simp
            have hih := ih { fr with
                buffer := fr.reader.take 8192,
                reader := fr.reader.drop 8192, buf_index := 0 + (fr.reader.take 8192).length,
                finished := decide (min 8192 fr.reader.length = 0) }
              hhs (by rw [hfin2]; intro h2; exact absurd h2 (by simp)) (by simp)
              (by
                unfold FileResponse.drainFuel
                rw [if_neg (by rw [hnotfin]; simp)]
                have hc2 : ¬ ({ fr with
                    buffer := fr.reader.take 8192,
                    reader := fr.reader.drop 8192,
                    buf_index := 0 + (fr.reader.take 8192).length,
                    finished := decide (min 8192 fr.reader.length = 0) } :
                    FileResponse).buf_index <
                    ({ fr with
                    buffer := fr.reader.take 8192,
                    reader := fr.reader.drop 8192,
                    buf_index := 0 + (fr.reader.take 8192).length,
                    finished := decide (min 8192 fr.reader.length = 0) } :
                    FileResponse).buffer.length := by
                  show ¬ 0 + (fr.reader.take 8192).length < (fr.reader.take 8192).length
                  omega
                rw [if_neg hc2]
                show (fr.reader.drop 8192).length + 2 + 0 ≤ n
                rw [if_neg hlt] at hfuel2
                simp only [List.length_drop]
                omega)
            obtain ⟨hi1, hi2, hi3⟩ := hih
            refine ⟨hi1, ?_, ?_⟩
            · rw [List.flatten_cons, hi2, List.drop_eq_nil_of_le hle]
              simp only [List.nil_append]
              rw [show List.drop (0 + (fr.reader.take 8192).length) (fr.reader.take 8192) = [] from
                List.drop_eq_nil_of_le (by omega)]
              simp
            · intro s hs
              rcases List.mem_cons.mp hs with h1 | h1
              · subst h1; simp
              · exact hi3 s h1

/-- Claim C5: a successfully opened file streams exactly its header block
followed by the bytes of the file: the slices emitted through
`fill_if_needed`/`peek`/`next` until `is_finished` concatenate to the
headers (Content-Length = the file length, Content-Type from the extension
table, Set-Cookie for the session) followed by the file contents, every
body slice fits the 8 KiB buffer, and an unopenable path surfaces as an
error from the constructor. -/
theorem fileResponse_streams_exact_bytes (fs : Fs) (path : String) (cookie : Cookie)
    (content : List Nat) (hc : fs path = some content) :
    ∃ fr, FileResponse.new fs path cookie = .ok fr ∧
      (∀ fuel, content.length + 4 ≤ fuel →
        (FileResponse.drain fuel fr).2.is_finished = true ∧
        (FileResponse.drain fuel fr).1.flatten =
          strBytes ("HTTP/1.1 200 OK\r\nContent-Length: " ++ toString content.length ++
            "\r\nContent-Type: " ++ detect_content_type path ++ "\r\nSet-Cookie: " ++
            cookie.to_header_value ++ "\r\n\r\n") ++ content ∧
        ∀ s ∈ (FileResponse.drain fuel fr).1.drop 1, s.length ≤ 8192) ∧
      (∀ path2, fs path2 = none → FileResponse.new fs path2 cookie = .error ()) := by
  refine ⟨_, by rw [FileResponse.new, hc], ?_, ?_⟩
  · intro fuel hfuel
    obtain ⟨k, hk⟩ : ∃ k, fuel = k + 1 := ⟨fuel - 1, by omega⟩
    subst hk
    set hdrs := strBytes ("HTTP/1.1 200 OK\r\nContent-Length: " ++ toString content.length ++
      "\r\nContent-Type: " ++ detect_content_type path ++ "\r\nSet-Cookie: " ++
      cookie.to_header_value ++ "\r\n\r\n") with hhdrs
    set fr0 : FileResponse := {
      headers := hdrs, headers_index := 0, headers_sent := false,
      reader := content, buffer := [], buf_index := 0, finished := false } with hfr0
    have hnf : fr0.is_finished = false := by
      unfold FileResponse.is_finished
      simp [hfr0]
    have hnofill : fr0.fill_if_needed = fr0 := by
      unfold FileResponse.fill_if_needed
      rw [if_neg]
      rintro ⟨h1, _, _⟩
      simp [hfr0] at h1
    have hpeek : fr0.peek = hdrs := by
      unfold FileResponse.peek
      simp [hfr0]
    have hnext : fr0.next hdrs.length = { fr0 with
        headers_index := 0 + hdrs.length,
        headers_sent := decide (hdrs.length ≤ 0 + hdrs.length) } := by
      unfold FileResponse.next
      simp [hfr0]
    have hstep : FileResponse.drain (k + 1) fr0 =
        (hdrs :: (FileResponse.drain k (fr0.next hdrs.length)).1,
         (FileResponse.drain k (fr0.next hdrs.length)).2) := by
      conv_lhs => rw [FileResponse.drain]
      rw [if_neg (by rw [hnf]; simp)]
      rw [show fr0.fill_if_needed = fr0 from hnofill]
      rfl
    rw [hstep, hnext]
    have hsent : decide (hdrs.length ≤ 0 + hdrs.length) = true := by simp
    have hbody := drain_body k { fr0 with
        headers_index := 0 + hdrs.length,
        headers_sent := decide (hdrs.length ≤ 0 + hdrs.length) }
      (by rw [hsent]) (by simp [hfr0]) (by simp [hfr0])
      (by
        unfold FileResponse.drainFuel
        rw [if_neg (by
          unfold FileResponse.is_finished
          simp [hfr0])]
        simp [hfr0]
        omega)
    obtain ⟨hb1, hb2, hb3⟩ := hbody
    refine ⟨hb1, ?_, ?_⟩
    · rw [List.flatten_cons, hb2]
      simp [hfr0]
    · intro s hs
      exact hb3 s (by simpa using hs)
  · intro path2 hn
    rw [FileResponse.new, hn]

/-! ### Claim C7 : POST direct-upload filename -/

theorem splitCh_ne_nil (sep : Char) (l : List Char) : splitCh sep l ≠ [] := by
  induction l with
  | nil => simp [splitCh]
  | cons c rest ih =>
    unfold splitCh
    by_cases hc : c = sep
    · rw [if_pos hc]; simp
    · rw [if_neg hc]
      cases hs : splitCh sep rest with
      | nil => simp
      | cons h t => simp

theorem splitCh_append_sep (sep : Char) (ys : List Char) :
    ∀ xs, (splitCh sep (xs ++ sep :: ys)).getLast? = (splitCh sep ys).getLast? ∧
      2 ≤ (splitCh sep (xs ++ sep :: ys)).length := by
  intro xs
  induction xs with
  | nil =>
    rw [List.nil_append, splitCh, if_pos rfl]
    cases hs : splitCh sep ys with
    | nil => exact absurd hs (splitCh_ne_nil sep ys)
    | cons h t => exact ⟨by simp, by simp⟩
  | cons c xs2 ih =>
    rw [List.cons_append, splitCh]
    by_cases hc : c = sep
    · rw [if_pos hc]
      cases hs : splitCh sep (xs2 ++ sep :: ys) with
      | nil => exact absurd hs (splitCh_ne_nil sep _)
      | cons h t =>
        rw [hs] at ih
        refine ⟨by simpa using ih.1, by simp⟩
    · rw [if_neg hc]
      cases hs : splitCh sep (xs2 ++ sep :: ys) with
      | nil => exact absurd hs (splitCh_ne_nil sep _)
      | cons h t =>
        rw [hs] at ih
        simp only [hs]
        cases t with
        | nil => simp at ih
        | cons t1 t2 =>
          refine ⟨?_, by simp⟩
          rw [List.getLast?_cons_cons]
          simpa using ih.1

theorem splitCh_dropWhile_getLast (sep : Char) (l : List Char) :
    (splitCh sep (l.dropWhile (fun c => c == sep))).getLast? = (splitCh sep l).getLast? := by
  induction l with
  | nil => rfl
  | cons c rest ih =>
    by_cases hc : c = sep
    · rw [show (c :: rest).dropWhile (fun c => c == sep) =
        rest.dropWhile (fun c => c == sep) from by simp [List.dropWhile, hc]]
      rw [ih, splitCh, if_pos hc]
      cases hs : splitCh sep rest with
      | nil => exact absurd hs (splitCh_ne_nil sep _)
      | cons h t => simp
    · rw [show (c :: rest).dropWhile (fun c => c == sep) = c :: rest from by
        simp [List.dropWhile_cons, hc]]

theorem getLast?_filter_of_pred {α : Type} (l : List α) (p : α → Bool) (x : α)
    (h : l.getLast? = some x) (hp : p x = true) : (l.filter p).getLast? = some x := by
  obtain ⟨ys, hl⟩ := List.getLast?_eq_some_iff.mp h
  subst hl
  rw [List.filter_append]
  rw [show List.filter p [x] = [x] from by simp [hp]]
  exact List.getLast?_concat _

/-- The shape of a successful `resolve_file_path` result: either the
normalised join or (in the fallback branch) the literal join of the
canonical base and the relative components. -/
theorem resolve_file_path_shape (fsT : FsTree) (server : ServerConfig) (route : Route)
    (request_path : String) (q : List String)
    (h : resolve_file_path fsT server route request_path = some q) :
    ∃ base_path,
      canonicalize fsT (pathComponents (server.root ++ "/" ++ route.root)) = some base_path ∧
      (q = normalize (base_path ++
          pathComponents (trimLeadingSlashes (stripRoutePrefix request_path route.path))) ∨
        q = base_path ++
          pathComponents (trimLeadingSlashes (stripRoutePrefix request_path route.path))) := by
  rcases hbase : canonicalize fsT (pathComponents (server.root ++ "/" ++ route.root)) with
    _ | base_path
  · rw [resolve_file_path, hbase] at h
    exact absurd h (by simp)
  · refine ⟨base_path, rfl, ?_⟩
    simp only [resolve_file_path, hbase] at h
    set rel := pathComponents (trimLeadingSlashes (stripRoutePrefix request_path route.path))
      with hreldef
    rcases hful : canonicalize fsT (base_path ++ rel) with _ | p
    · simp only [hful] at h
      rcases hpar : parentPath (base_path ++ rel) with _ | par
      · simp only [hpar] at h
        exact Option.noConfusion h
      · simp only [hpar] at h
        rcases hcp : canonicalize fsT par with _ | cp
        · simp only [hcp] at h
          exact Option.noConfusion h
        · simp only [hcp] at h
          by_cases hguard : base_path.isPrefixOf cp = true
          · simp only [if_pos hguard] at h
            rw [if_pos (List.isPrefixOf_iff_prefix.mpr ⟨rel, rfl⟩)] at h
            exact Or.inr (Option.some.injEq .. ▸ h).symm
          · simp only [if_neg hguard] at h
            exact Option.noConfusion h
    · simp only [hful] at h
      obtain ⟨hpn, _⟩ := canonicalize_eq_some _ _ _ hful
      by_cases hguard : base_path.isPrefixOf p = true
      · rw [if_pos hguard] at h
        have hpq : p = q := Option.some.inj h
        exact Or.inl (hpq ▸ hpn)
      · rw [if_neg hguard] at h
        exact absurd h (by simp)

/-- Claim C7: for a POST whose Content-Type has one of the upload prefixes,
the body is written to a single file: when the last segment of the request
path is non-empty the write target is exactly the resolved `file_path`
(whose final component, by the last conjunct, is that very last segment of
the request path), and when the last segment is empty the target gets the
generated `upload_<uuid>.<subtype>` name appended. -/
theorem post_upload_filename
    (eb : String → Option String) (emf : List Nat → String → List (String × List Nat))
    (fs : Fs) (uuid fp : String) (req : HttpRequest) (cookie : Cookie)
    (b : List Nat) (ct : String)
    (hbody : req.body = some b)
    (hct : req.headers.get "content-type" = some ct)
    (hok : uploadTypeOk ct = true) :
    (lastSegment req.path ≠ "" →
      handle_post eb emf fs uuid fp req cookie = write_file fs fp b cookie) ∧
    (lastSegment req.path = "" →
      handle_post eb emf fs uuid fp req cookie =
        write_file fs (fp ++ ("/upload_" ++ uuid ++ "." ++ subtypeOf ct)) b cookie) ∧
    (∀ (fsT : FsTree) (server : ServerConfig) (route : Route) (q : List String),
      resolve_file_path fsT server route req.path = some q →
      sIsPrefixOf (route.path ++ "/") req.path = true →
      lastSegment req.path ≠ "" → lastSegment req.path ≠ "." → lastSegment req.path ≠ ".." →
      q.getLast? = some (lastSegment req.path)) := by
  have hmain : handle_post eb emf fs uuid fp req cookie =
      write_file fs (fp ++ (if lastSegment req.path ≠ "" then "" else
        "/upload_" ++ uuid ++ "." ++ subtypeOf ct)) b cookie := by
    simp only [handle_post, hbody, hct]
    rw [if_pos hok]
  refine ⟨?_, ?_, ?_⟩
  · intro hne
    rw [hmain, if_pos hne]
    have : fp ++ "" = fp := by
      apply String.ext
      simp
    rw [this]
  · intro he
    rw [hmain, if_neg (fun hn => hn he)]
  · intro fsT server route q hres hb h1 h2 h3
    obtain ⟨base_path, hbase, hq⟩ := resolve_file_path_shape fsT server route req.path q hres
    have hbp : (route.path ++ "/").data <+: req.path.data :=
      List.isPrefixOf_iff_prefix.mp hb
    obtain ⟨t, ht⟩ := hbp
    rw [String.data_append] at ht
    rw [show ("/" : String).data = ['/'] from rfl] at ht
    have ht2 : route.path.data ++ '/' :: t = req.path.data := by
      rw [← ht]
      simp
    have hstrip : stripRoutePrefix req.path route.path = sDrop req.path route.path.length := by
      unfold stripRoutePrefix
      rw [if_pos]
      show sIsPrefixOf route.path req.path = true
      unfold sIsPrefixOf
      rw [List.isPrefixOf_iff_prefix]
      exact ⟨'/' :: t, ht2⟩
    have hdropdata : (sDrop req.path route.path.length).data = '/' :: t := by
      show req.path.data.drop route.path.length = _
      rw [← ht2, show route.path.length = route.path.data.length from rfl]
      exact List.drop_left _ _
    have hreldata : (trimLeadingSlashes (stripRoutePrefix req.path route.path)).data =
        t.dropWhile (fun c => c == '/') := by
      rw [hstrip]
      show (sDrop req.path route.path.length).data.dropWhile (fun c => c == '/') = _
      rw [hdropdata]
      simp [List.dropWhile_cons]
    have hseg : (splitCh '/'
          (trimLeadingSlashes (stripRoutePrefix req.path route.path)).data).getLast? =
        (splitCh '/' req.path.data).getLast? := by
      rw [hreldata, splitCh_dropWhile_getLast]
      rw [show req.path.data = route.path.data ++ '/' :: t from ht2.symm]
      exact ((splitCh_append_sep '/' t route.path.data).1).symm
    obtain ⟨segChars, hsegc⟩ : ∃ sc, (splitCh '/' req.path.data).getLast? = some sc := by
      cases hx : (splitCh '/' req.path.data).getLast? with
      | none =>
        exfalso
        have hne := splitCh_ne_nil '/' req.path.data
        have hs2 : (splitCh '/' req.path.data).getLast?.isSome :=
          List.getLast?_isSome.mpr hne
        rw [hx] at hs2
        simp at hs2
      | some sc => exact ⟨sc, rfl⟩
    have hlastseg : lastSegment req.path = ⟨segChars⟩ := by
      unfold lastSegment splitSlash
      rw [hsegc]
      rfl
    have hcomp : (pathComponents
        (trimLeadingSlashes (stripRoutePrefix req.path route.path))).getLast? =
        some (lastSegment req.path) := by
      unfold pathComponents sSplit
      apply getLast?_filter_of_pred
      · rw [List.getLast?_map, hseg, hsegc, hlastseg]
        rfl
      · simp only [Bool.and_eq_true, bne_iff_ne]
        exact ⟨by simpa using h1, by simpa using h2⟩
    rcases hq with hq | hq
    · obtain ⟨zs, hzs⟩ := List.getLast?_eq_some_iff.mp hcomp
      rw [hq, hzs, ← List.append_assoc, normalize_concat]
      rw [show normStep (normalize (base_path ++ zs)) (lastSegment req.path) =
        normalize (base_path ++ zs) ++ [lastSegment req.path] from by simp [normStep, h3]]
      exact List.getLast?_concat _
    · rw [hq, List.getLast?_append, hcomp]
      rfl

/-! ### Claim C4 : body-size admission control -/

/-- A successful `append` on a builder whose head terminator has been seen
guarantees the head parses. -/
theorem append_snd_parse (b : Engine.RequestBuilder) (d : List Nat)
    (h : (b.append d).2 = true) :
    (b.append d).1.header_done = true → (parseHead (b.append d).1.buffer).isSome = true := by
  simp only [Engine.RequestBuilder.append] at h ⊢
  split at h
  · exact Bool.noConfusion h
  · rename_i hcond
    rw [if_neg hcond]
    intro hhd
    show (parseHead ({ b with
      buffer := b.buffer ++ d } : Engine.RequestBuilder).buffer).isSome = true
    rcases hp : parseHead ({ b with
        buffer := b.buffer ++ d } : Engine.RequestBuilder).buffer with _ | r
    · exact absurd ⟨hhd, by rw [hp]; rfl⟩ hcond
    · rfl

/-- A positive accumulated body length means the head terminator was seen. -/
theorem body_len_pos_header_done (b : Engine.RequestBuilder)
    (h : 0 < b.body_len) : b.header_done = true := by
  unfold Engine.RequestBuilder.body_len at h
  unfold Engine.RequestBuilder.header_done
  cases hs : headSplit b.buffer with
  | none =>
    rw [hs] at h
    simp at h
  | some x => rfl

/-- A builder forced to `Complete` whose head parses yields a request. -/
theorem get_of_complete (b : Engine.RequestBuilder)
    (hps : b.pstate = .Complete)
    (hp : (parseHead b.buffer).isSome = true) : (b.get).isSome = true := by
  unfold Engine.RequestBuilder.get Engine.RequestBuilder.done
  rw [hps]
  simpa using hp

/-- Invariant of the read loop (src/read.rs `read_request`) on a connection
whose server is already selected with limit `m` and whose body does not yet
exceed it: the body_too_large flag is set exactly when the accumulated body
exceeds `m` (whenever the loop reports a complete request), and a set flag
comes with a parser forced to `Complete`, a parseable request, and the
selection state preserved. -/
theorem read_request_guard (li : ListenerInfo) :
    ∀ (events : List Engine.ReadEvent) (s : Engine.SocketStatus) (m : Nat),
      s.server_selected = true →
      s.max_body_size = some m →
      s.body_too_large = false →
      s.request.body_len ≤ m →
      ((Engine.read_request events s (some li)).1 = some true →
        ((Engine.read_request events s (some li)).2.body_too_large = true ↔
          m < (Engine.read_request events s (some li)).2.request.body_len)) ∧
      ((Engine.read_request events s (some li)).2.body_too_large = true →
        (Engine.read_request events s (some li)).1 = some true ∧
        (Engine.read_request events s (some li)).2.request.pstate = .Complete ∧
        (((Engine.read_request events s (some li)).2.request.get).isSome = true) ∧
        (Engine.read_request events s (some li)).2.server_selected = true ∧
        (Engine.read_request events s (some li)).2.max_body_size = some m) := by
  intro events
  induction events with
  | nil =>
    intro s m hsel hmax hflag hlen
    have e : Engine.read_request [] s (some li) = (some false, s) := rfl
    refine ⟨?_, ?_⟩
    · intro h
      rw [e] at h
      exact Bool.noConfusion (Option.some.inj h)
    · intro h
      rw [e] at h
      have h2 : s.body_too_large = true := h
      rw [hflag] at h2
      exact Bool.noConfusion h2
  | cons ev rest ih =>
    intro s m hsel hmax hflag hlen
    cases ev with
    | eof =>
      have e : Engine.read_request (.eof :: rest) s (some li) = (none, s) := rfl
      refine ⟨?_, ?_⟩
      · intro h
        rw [e] at h
        exact Option.noConfusion h
      · intro h
        rw [e] at h
        have h2 : s.body_too_large = true := h
        rw [hflag] at h2
        exact Bool.noConfusion h2
    | ioErr =>
      have e : Engine.read_request (.ioErr :: rest) s (some li) = (none, s) := rfl
      refine ⟨?_, ?_⟩
      · intro h
        rw [e] at h
        exact Option.noConfusion h
      · intro h
        rw [e] at h
        have h2 : s.body_too_large = true := h
        rw [hflag] at h2
        exact Bool.noConfusion h2
    | wouldBlock =>
      have e : Engine.read_request (.wouldBlock :: rest) s (some li) = (some false, s) := rfl
      refine ⟨?_, ?_⟩
      · intro h
        rw [e] at h
        exact Bool.noConfusion (Option.some.inj h)
      · intro h
        rw [e] at h
        have h2 : s.body_too_large = true := h
        rw [hflag] at h2
        exact Bool.noConfusion h2
    | chunk data =>
      rcases happ : s.request.append data with ⟨b1, ok⟩
      cases ok with
      | false =>
        have e : Engine.read_request (.chunk data :: rest) s (some li) =
            (none, { s with request := b1 }) := by
          simp only [Engine.read_request, happ, eq_self_iff_true, if_true]
        refine ⟨?_, ?_⟩
        · intro h
          rw [e] at h
          exact Option.noConfusion h
        · intro h
          rw [e] at h
          have h2 : s.body_too_large = true := h
          rw [hflag] at h2
          exact Bool.noConfusion h2
      | true =>
        have hparse : b1.header_done = true → (parseHead b1.buffer).isSome = true := by
          have h2 := append_snd_parse s.request data (by rw [happ])
          rw [happ] at h2
          exact h2
        have hc : ¬(b1.header_done = true ∧ s.server_selected = false) := by
          rintro ⟨_, hss⟩
          rw [hsel] at hss
          exact Bool.noConfusion hss
        have hok : ¬(true = false) := fun hx => Bool.noConfusion hx
        by_cases hov : m < b1.body_len
        · have hred2 : Engine.read_request (.chunk data :: rest) s (some li) =
              (some true, { s with
                request := b1.set_state .Complete, body_too_large := true }) := by
            simp only [Engine.read_request, happ, if_neg hok, if_neg hc, hmax, if_pos hov]
          refine ⟨?_, ?_⟩
          · intro _
            rw [hred2]
            constructor
            · intro _
              show m < b1.body_len
              exact hov
            · intro _
              rfl
          · intro _
            rw [hred2]
            refine ⟨rfl, rfl, ?_, hsel, hmax⟩
            apply get_of_complete
            · rfl
            · show (parseHead b1.buffer).isSome = true
              exact hparse (body_len_pos_header_done b1 (by omega))
        · by_cases hdone : b1.done = true
          · have hred2 : Engine.read_request (.chunk data :: rest) s (some li) =
                (some true, { s with request := b1 }) := by
              simp only [Engine.read_request, happ, if_neg hok, if_neg hc, hmax, if_neg hov,
                if_pos hdone]
            refine ⟨?_, ?_⟩
            · intro _
              rw [hred2]
              constructor
              · intro hbt
                have h2 : s.body_too_large = true := hbt
                rw [hflag] at h2
                exact Bool.noConfusion h2
              · intro hlt
                exact absurd hlt hov
            · intro hbt
              rw [hred2] at hbt
              have h2 : s.body_too_large = true := hbt
              rw [hflag] at h2
              exact Bool.noConfusion h2
          · have hred2 : Engine.read_request (.chunk data :: rest) s (some li) =
                Engine.read_request rest { s with request := b1 } (some li) := by
              simp only [Engine.read_request, happ, if_neg hok, if_neg hc, hmax, if_neg hov,
                if_neg hdone]
            have hih := ih { s with request := b1 } m hsel hmax hflag
              (by show b1.body_len ≤ m; omega)
            rw [hred2]
            exact hih

/-- Claim C4: during the Read phase, on a connection whose server has been
selected with body limit `m` (and whose body did not already exceed it),
the body_too_large flag set by `read_request` is set exactly when a
successful read made the accumulated body length exceed `m`; when it is
set, the parser has been forced to `Complete` and `handle_read_state`
transitions the connection to the Write phase carrying a 413
"Payload Too Large" response whose body is exactly
"Request body too large" — and this outcome is the same for every choice
of the external handler collaborators `ext` and filesystem, i.e. no route
dispatch or handler runs for that request. -/
theorem body_too_large_responds_413 (ext : Engine.Externals) (fsT : FsTree) (fs : Fs)
    (events : List Engine.ReadEvent) (sd : Engine.SocketData) (li : ListenerInfo) (m : Nat)
    (hsel : sd.status.server_selected = true)
    (hmax : sd.status.max_body_size = some m)
    (hflag : sd.status.body_too_large = false)
    (hlen : sd.status.request.body_len ≤ m)
    (hidx : li.default_server_index < li.servers.length) :
    ((Engine.read_request events sd.status (some li)).1 = some true →
      ((Engine.read_request events sd.status (some li)).2.body_too_large = true ↔
        m < (Engine.read_request events sd.status (some li)).2.request.body_len)) ∧
    ((Engine.read_request events sd.status (some li)).2.body_too_large = true →
      (Engine.read_request events sd.status (some li)).2.request.pstate = .Complete ∧
      Engine.handle_read_state ext fsT fs events sd (some li) =
        (some true,
          { sd with status :=
              { (Engine.read_request events sd.status (some li)).2 with
                response := some (.simple (SimpleResponse.new
                  (((HttpResponseBuilder.new 413 "Payload Too Large").withBody
                    (strBytes "Request body too large")).build))),
                status := .Write } }, fs)) := by
  obtain ⟨g1, g2⟩ := read_request_guard li events sd.status m hsel hmax hflag hlen
  refine ⟨g1, ?_⟩
  intro hbig
  obtain ⟨hr1, hps, hgs, -, -⟩ := g2 hbig
  refine ⟨hps, ?_⟩
  obtain ⟨req, hreq⟩ := Option.isSome_iff_exists.mp hgs
  have hsrv : ∃ srv, select_server li (extract_hostname req.headers) = some srv := by
    unfold select_server
    cases hf : li.servers.find? (fun sc => sc.server_name == extract_hostname req.headers) with
    | some srv => exact ⟨srv, rfl⟩
    | none => exact ⟨li.servers[li.default_server_index], List.getElem?_eq_getElem hidx⟩
  obtain ⟨srv, hsrv2⟩ := hsrv
  simp only [Engine.handle_read_state, hr1, ne_eq, hreq, hsrv2, hbig, if_true,
    not_true_eq_false, if_false]

/-- Claim C4 witness: a POST whose 5-byte chunk exceeds the 3-byte limit
is answered with the canned 413 response. -/
theorem body_too_large_responds_413_witness :
    (Engine.read_request evs413 sd413.status (some liA)).2.request.pstate = .Complete ∧
    Engine.handle_read_state ext413 fsStatic fsW evs413 sd413 (some liA) =
      (some true,
        { sd413 with status :=
            { (Engine.read_request evs413 sd413.status (some liA)).2 with
              response := some (.simple (SimpleResponse.new
                (((HttpResponseBuilder.new 413 "Payload Too Large").withBody
                  (strBytes "Request body too large")).build))),
              status := .Write } }, fsW) :=
  (body_too_large_responds_413 ext413 fsStatic fsW evs413 sd413 liA 3
    rfl rfl rfl (by decide) (by decide)).2 (by decide)


theorem post_upload_filename_witness :
    handle_post (fun _ => none) (fun _ _ => []) fsW "u1" "www/storage/file.txt" reqUpload
        ⟨"sid"⟩ =
      write_file fsW "www/storage/file.txt" [1, 2] ⟨"sid"⟩ :=
  (post_upload_filename (fun _ => none) (fun _ _ => []) fsW "u1" "www/storage/file.txt"
    reqUpload ⟨"sid"⟩ [1, 2] "text/plain" rfl (by decide) (by decide)).1 (by decide)

theorem engineResp_finished_fill (r : EngineResponse) (h : r.is_finished = true) :
    r.fill_if_needed = r := by
  cases r with
  | simple r2 => rfl
  | file r2 =>
    have h2 := h
    simp only [EngineResponse.is_finished, FileResponse.is_finished, Bool.and_eq_true,
      decide_eq_true_eq] at h2
    obtain ⟨⟨hhs, hfin⟩, hle⟩ := h2
    simp only [EngineResponse.fill_if_needed]
    unfold FileResponse.fill_if_needed
    rw [if_neg]
    rintro ⟨_, _, h3⟩
    rw [hfin] at h3
    cases h3

theorem engineResp_finished_peek (r : EngineResponse) (h : r.is_finished = true) :
    r.peek = [] := by
  cases r with
  | simple r2 =>
    simp only [EngineResponse.is_finished, SimpleResponse.is_finished, decide_eq_true_eq] at h
    simp [EngineResponse.peek, SimpleResponse.peek, List.drop_eq_nil_of_le h]
  | file r2 =>
    have h2 := h
    simp only [EngineResponse.is_finished, FileResponse.is_finished, Bool.and_eq_true,
      decide_eq_true_eq] at h2
    obtain ⟨⟨hhs, _⟩, hle⟩ := h2
    simp only [EngineResponse.peek]
    unfold FileResponse.peek
    rw [hhs]
    simp [List.drop_eq_nil_of_le hle]

/-- Claim C6: once the response has finished writing, a request that
carried `Connection: keep-alive` (any capitalisation) resets the request
builder to a fresh empty builder, clears the response slot, and returns the
phase to Read; any other Connection value, or an absent header, shuts the
socket down and returns `None`, which makes the connection eligible for
removal by the loop. -/
theorem keep_alive_resets_connection (sd : Engine.SocketData) (ev : Engine.WriteEvent)
    (resp : EngineResponse) (req : HttpRequest)
    (hresp : sd.status.response = some resp)
    (hfin : resp.is_finished = true)
    (hreq : sd.status.request.get = some req) :
    (Engine.should_keep_alive req = true ↔
      ∃ v, req.headers.get "connection" = some v ∧ sToLower v = "keep-alive") ∧
    (Engine.should_keep_alive req = true →
      Engine.handle_write_state sd ev = (some true,
        { sd with status := { sd.status with
            status := .Read,
            request := Engine.RequestBuilder.new, response := none } })) ∧
    (Engine.should_keep_alive req = false →
      Engine.handle_write_state sd ev = (none, { sd with shutdown := true })) := by
  refine ⟨?_, ?_, ?_⟩
  · unfold Engine.should_keep_alive
    cases hv : req.headers.get "connection" with
    | none => simp
    | some v =>
      simp only [Option.map_some', Option.getD_some, beq_iff_eq]
      constructor
      · intro h
        exact ⟨v, rfl, h⟩
      · rintro ⟨v2, hv2, hl⟩
        rw [Option.some.injEq] at hv2
        rw [← hv2] at hl
        exact hl
  · intro hka
    rcases sd with ⟨⟨st, rq, rs, ssel, btl, mbs⟩, shd⟩
    simp only at hresp
    subst hresp
    simp only [Engine.handle_write_state, Engine.write_response,
      engineResp_finished_fill resp hfin, engineResp_finished_peek resp hfin, hfin]
    simp only at hreq
    simp [hreq, hka, hfin]
  · intro hka
    rcases sd with ⟨⟨st, rq, rs, ssel, btl, mbs⟩, shd⟩
    simp only at hresp
    subst hresp
    simp only [Engine.handle_write_state, Engine.write_response,
      engineResp_finished_fill resp hfin, engineResp_finished_peek resp hfin, hfin]
    simp only at hreq
    simp [hreq, hka, hfin]

theorem keep_alive_resets_connection_witness :
    Engine.handle_write_state sdKeep .wouldBlock = (some true,
      { sdKeep with status := { sdKeep.status with
          status := .Read, request := Engine.RequestBuilder.new, response := none } }) :=
  (keep_alive_resets_connection sdKeep .wouldBlock respDone reqKeep rfl (by decide)
    (by decide)).2.1 (by decide)

theorem fileResponse_streams_exact_bytes_witness :
    ∃ fr, FileResponse.new fsW "a.txt" ⟨"sid"⟩ = .ok fr ∧
      (FileResponse.drain 6 fr).1.flatten =
        strBytes ("HTTP/1.1 200 OK\r\nContent-Length: " ++ toString ([104, 105] : List Nat).length ++
          "\r\nContent-Type: " ++ detect_content_type "a.txt" ++ "\r\nSet-Cookie: " ++
          Cookie.to_header_value ⟨"sid"⟩ ++ "\r\n\r\n") ++ [104, 105] := by
  obtain ⟨fr, h1, h2, _⟩ :=
    fileResponse_streams_exact_bytes fsW "a.txt" ⟨"sid"⟩ [104, 105] (by simp [fsW])
  exact ⟨fr, h1, (h2 6 (by decide)).2.1⟩

theorem resolve_file_path_stays_under_base_witness :
    resolve_file_path fsStatic srvStatic routeStatic "/st/../static/index.html" =
      some ["www", "static", "index.html"] ∧
    ∃ base_path,
      canonicalize fsStatic (pathComponents (srvStatic.root ++ "/" ++ routeStatic.root)) =
        some base_path ∧
      base_path <+: normalize ["www", "static", "index.html"] :=
  ⟨by decide,
    resolve_file_path_stays_under_base fsStatic srvStatic routeStatic
      "/st/../static/index.html" ["www", "static", "index.html"] (by decide)⟩

end LocalServer
